import Mathlib

/-!
Verification of the prediction-pulse ingestion pipeline.

The repository normalizes raw prediction-market payloads (Kalshi, Polymarket)
into a canonical form, filters them, and upserts them into a three-table
SQLite store while appending price snapshots.  This file is a shallow
embedding of that code:

* `PredictionPulse.PyVal` models the dynamically typed Python values that
  flow through the parsers, with Python truthiness, `or`-chains, `float()`
  conversion, subscripting and `json.loads`.
* `PredictionPulse.FetchKalshi` / `PredictionPulse.FetchPoly` embed
  `parse_market` and `filter_markets` from `fetch_kalshi_markets.py` and
  `fetch_polymarket.py`.  Fallible code returns `Except PyErr`.
* `PredictionPulse.Db` embeds the SQLAlchemy models of `db.py` as row lists
  with their column sets and NOT NULL constraints.
* `PredictionPulse.IngestKalshi` / `PredictionPulse.IngestPoly` embed
  `upsert_market`, `upsert_contract`, `insert_price_snapshot` and
  `ingest_markets` from `ingest_kalshi.py` and `ingest_polymarket.py`,
  including the session/commit/rollback discipline.  Store failures that
  depend on the environment (connection loss, injected constraint
  violations) are modelled by a `StoreBehavior` oracle.
-/

namespace PredictionPulse

/-- A dynamically typed Python value as it appears in the raw market
payloads and parsed dictionaries: `None`, booleans, numbers (modelled
exactly as rationals), strings, lists, and string-keyed dicts. -/
inductive PyVal where
  | none : PyVal
  | bool (b : Bool) : PyVal
  | num (q : ℚ) : PyVal
  | str (s : String) : PyVal
  | list (xs : List PyVal) : PyVal
  | dict (entries : List (String × PyVal)) : PyVal
deriving Repr

mutual

/-- Decidable equality on `PyVal` (hand-rolled: the inductive nests `List`). -/
def decEqPyVal : (a b : PyVal) → Decidable (a = b)
  | .none, .none => isTrue rfl
  | .bool a, .bool b =>
    match decEq a b with
    | isTrue h => isTrue (by rw [h])
    | isFalse h => isFalse (fun hh => h (by injection hh))
  | .num a, .num b =>
    match decEq a b with
    | isTrue h => isTrue (by rw [h])
    | isFalse h => isFalse (fun hh => h (by injection hh))
  | .str a, .str b =>
    match decEq a b with
    | isTrue h => isTrue (by rw [h])
    | isFalse h => isFalse (fun hh => h (by injection hh))
  | .list xs, .list ys =>
    match decEqPyValList xs ys with
    | isTrue h => isTrue (by rw [h])
    | isFalse h => isFalse (fun hh => h (by injection hh))
  | .dict xs, .dict ys =>
    match decEqPyValDict xs ys with
    | isTrue h => isTrue (by rw [h])
    | isFalse h => isFalse (fun hh => h (by injection hh))
  | .none, .bool _ => isFalse (fun h => PyVal.noConfusion h)
  | .none, .num _ => isFalse (fun h => PyVal.noConfusion h)
  | .none, .str _ => isFalse (fun h => PyVal.noConfusion h)
  | .none, .list _ => isFalse (fun h => PyVal.noConfusion h)
  | .none, .dict _ => isFalse (fun h => PyVal.noConfusion h)
  | .bool _, .none => isFalse (fun h => PyVal.noConfusion h)
  | .bool _, .num _ => isFalse (fun h => PyVal.noConfusion h)
  | .bool _, .str _ => isFalse (fun h => PyVal.noConfusion h)
  | .bool _, .list _ => isFalse (fun h => PyVal.noConfusion h)
  | .bool _, .dict _ => isFalse (fun h => PyVal.noConfusion h)
  | .num _, .none => isFalse (fun h => PyVal.noConfusion h)
  | .num _, .bool _ => isFalse (fun h => PyVal.noConfusion h)
  | .num _, .str _ => isFalse (fun h => PyVal.noConfusion h)
  | .num _, .list _ => isFalse (fun h => PyVal.noConfusion h)
  | .num _, .dict _ => isFalse (fun h => PyVal.noConfusion h)
  | .str _, .none => isFalse (fun h => PyVal.noConfusion h)
  | .str _, .bool _ => isFalse (fun h => PyVal.noConfusion h)
  | .str _, .num _ => isFalse (fun h => PyVal.noConfusion h)
  | .str _, .list _ => isFalse (fun h => PyVal.noConfusion h)
  | .str _, .dict _ => isFalse (fun h => PyVal.noConfusion h)
  | .list _, .none => isFalse (fun h => PyVal.noConfusion h)
  | .list _, .bool _ => isFalse (fun h => PyVal.noConfusion h)
  | .list _, .num _ => isFalse (fun h => PyVal.noConfusion h)
  | .list _, .str _ => isFalse (fun h => PyVal.noConfusion h)
  | .list _, .dict _ => isFalse (fun h => PyVal.noConfusion h)
  | .dict _, .none => isFalse (fun h => PyVal.noConfusion h)
  | .dict _, .bool _ => isFalse (fun h => PyVal.noConfusion h)
  | .dict _, .num _ => isFalse (fun h => PyVal.noConfusion h)
  | .dict _, .str _ => isFalse (fun h => PyVal.noConfusion h)
  | .dict _, .list _ => isFalse (fun h => PyVal.noConfusion h)

/-- Decidable equality on lists of `PyVal`. -/
def decEqPyValList : (xs ys : List PyVal) → Decidable (xs = ys)
  | [], [] => isTrue rfl
  | [], _ :: _ => isFalse (fun h => List.noConfusion h)
  | _ :: _, [] => isFalse (fun h => List.noConfusion h)
  | x :: xs, y :: ys =>
    match decEqPyVal x y with
    | isFalse h1 => isFalse (fun h => h1 (by injection h))
    | isTrue h1 =>
      match decEqPyValList xs ys with
      | isTrue h2 => isTrue (by rw [h1, h2])
      | isFalse h2 => isFalse (fun h => h2 (by injection h))

/-- Decidable equality on string-keyed association lists of `PyVal`. -/
def decEqPyValDict : (xs ys : List (String × PyVal)) → Decidable (xs = ys)
  | [], [] => isTrue rfl
  | [], _ :: _ => isFalse (fun h => List.noConfusion h)
  | _ :: _, [] => isFalse (fun h => List.noConfusion h)
  | (k1, v1) :: xs, (k2, v2) :: ys =>
    match decEq k1 k2 with
    | isFalse h1 =>
      isFalse (fun h => by
        injection h with hhead htail
        injection hhead with hk hv
        exact h1 hk)
    | isTrue h1 =>
      match decEqPyVal v1 v2 with
      | isFalse h2 =>
        isFalse (fun h => by
          injection h with hhead htail
          injection hhead with hk hv
          exact h2 hv)
      | isTrue h2 =>
        match decEqPyValDict xs ys with
        | isTrue h3 => isTrue (by rw [h1, h2, h3])
        | isFalse h3 => isFalse (fun h => h3 (by injection h))

end

instance : DecidableEq PyVal := decEqPyVal

/-- Python exception kinds raised by the embedded code.  `compileError`
models SQLAlchemy statement-compilation failures (e.g. unconsumed column
names) and `dbError` stands for an environment-dependent store failure. -/
inductive PyErr where
  | valueError : PyErr
  | typeError : PyErr
  | indexError : PyErr
  | keyError : PyErr
  | attributeError : PyErr
  | unboundLocalError : PyErr
  | jsonDecodeError : PyErr
  | integrityError : PyErr
  | compileError : PyErr
  | dbError : PyErr
deriving DecidableEq, Repr

/-- Symbolic rendering of `str(e)` for each exception kind; the ingestion
error lists only ever test membership and count, never the exact text. -/
def PyErr.msg : PyErr → String
  | .valueError => "ValueError"
  | .typeError => "TypeError"
  | .indexError => "IndexError"
  | .keyError => "KeyError"
  | .attributeError => "AttributeError"
  | .unboundLocalError => "UnboundLocalError"
  | .jsonDecodeError => "JSONDecodeError"
  | .integrityError => "IntegrityError: NOT NULL constraint failed"
  | .compileError => "CompileError: Unconsumed column names: source"
  | .dbError => "OperationalError"

/-- Python truthiness of a value (`bool(v)`). -/
def pyTruthy : PyVal → Bool
  | .none => false
  | .bool b => b
  | .num q => decide (q ≠ 0)
  | .str s => decide (s ≠ "")
  | .list xs => !xs.isEmpty
  | .dict es => !es.isEmpty

/-- Python `a or b`: returns `a` when truthy, otherwise `b`. -/
def pyOr (a b : PyVal) : PyVal :=
  if pyTruthy a then a else b

/-- `str(v)` as used when a value is interpolated into an f-string.  The
rendering of non-string values is schematic (numbers print as rationals);
all identifiers exercised by the claims are strings, where it is exact. -/
def pyStrOf : PyVal → String
  | .str s => s
  | .none => "None"
  | .bool b => if b then "True" else "False"
  | .num q => if q.den = 1 then toString q.num else toString q.num ++ "/" ++ toString q.den
  | .list _ => "[...]"
  | .dict _ => "\x7b...\x7d"

/-- Does `needle` occur at the start of `haystack`? -/
def listStartsWith : List Char → List Char → Bool
  | [], _ => true
  | _ :: _, [] => false
  | a :: as, b :: bs => a == b && listStartsWith as bs

/-- Does `needle` occur anywhere in `haystack`? -/
def listOccursIn (needle : List Char) : List Char → Bool
  | [] => needle.isEmpty
  | b :: bs => listStartsWith needle (b :: bs) || listOccursIn needle bs

/-- Python substring test `a in b` on strings. -/
def pyInStr (a b : String) : Bool :=
  listOccursIn a.data b.data

/-- Replace every occurrence of `pat` (scanning left to right) by `sub`,
with explicit fuel (one unit per input character) so that the recursion
is structural; the empty pattern leaves the input unchanged. -/
def replaceCharsF (pat sub : List Char) : ℕ → List Char → List Char
  | _, [] => []
  | 0, cs => cs
  | fuel + 1, c :: cs =>
    if pat ≠ [] ∧ listStartsWith pat (c :: cs) = true then
      sub ++ replaceCharsF pat sub fuel (cs.drop (pat.length - 1))
    else c :: replaceCharsF pat sub fuel cs

/-- Model of Python `s.replace(pat, sub)`. -/
def pyReplace (s pat sub : String) : String :=
  String.mk (replaceCharsF pat.data sub.data s.data.length s.data)

/-- Strip leading and trailing whitespace, as `float()` does. -/
def pyStrip (s : String) : String :=
  String.mk (((s.data.dropWhile Char.isWhitespace).reverse.dropWhile
    Char.isWhitespace).reverse)

/-- Value of a digit string, most significant first. -/
def digitsToNat (ds : List Char) : ℕ :=
  ds.foldl (fun a c => a * 10 + (c.toNat - 48)) 0

/-- Parse the exponent tail (after `e`/`E`) of a float literal and apply it. -/
def applyExp (m : ℚ) (cs : List Char) : Option ℚ :=
  let (sign, ds) : ℚ × List Char :=
    match cs with
    | '-' :: rest => (-1, rest)
    | '+' :: rest => (1, rest)
    | rest => (1, rest)
  if ds ≠ [] ∧ ds.all Char.isDigit then
    let e : ℤ := sign.num * (digitsToNat ds : ℤ)
    some (m * (10 : ℚ) ^ e)
  else Option.none

/-- Parse an unsigned float literal: digits, optional fraction, optional
exponent; at least one mantissa digit is required (`.5` and `5.` parse,
as in Python). -/
def parseUnsignedFloat (cs : List Char) : Option ℚ :=
  let intDigits := cs.takeWhile Char.isDigit
  let rest1 := cs.dropWhile Char.isDigit
  match rest1 with
  | [] => if intDigits = [] then Option.none else some (digitsToNat intDigits : ℚ)
  | c :: rest2 =>
    if c = '.' then
      let fracDigits := rest2.takeWhile Char.isDigit
      let rest3 := rest2.dropWhile Char.isDigit
      if intDigits = [] ∧ fracDigits = [] then Option.none
      else
        let mant : ℚ := (digitsToNat intDigits : ℚ) +
          (digitsToNat fracDigits : ℚ) / ((10 : ℚ) ^ fracDigits.length)
        match rest3 with
        | [] => some mant
        | e :: rest4 =>
          if e = 'e' ∨ e = 'E' then applyExp mant rest4 else Option.none
    else if c = 'e' ∨ c = 'E' then
      if intDigits = [] then Option.none
      else applyExp (digitsToNat intDigits : ℚ) rest2
    else Option.none

/-- Model of Python `float(s)` on a string: strip surrounding whitespace,
optional sign, then a float literal.  (`inf`/`nan` forms are outside the
modelled fragment and count as failures.) -/
def pyFloatStr (s : String) : Option ℚ :=
  match (pyStrip s).data with
  | '-' :: rest => (parseUnsignedFloat rest).map (fun q => -q)
  | '+' :: rest => parseUnsignedFloat rest
  | cs => parseUnsignedFloat cs

/-- Model of Python `float(v)`: numbers and booleans convert, strings are
parsed (`ValueError` on failure), everything else raises `TypeError`. -/
def pyFloat : PyVal → Except PyErr ℚ
  | .num q => .ok q
  | .bool b => .ok (if b then 1 else 0)
  | .str s =>
    match pyFloatStr s with
    | some q => .ok q
    | Option.none => .error .valueError
  | .none => .error .typeError
  | .list _ => .error .typeError
  | .dict _ => .error .typeError

/-- Model of Python `v[0]`: head of a list (`IndexError` when empty), first
character of a string, `KeyError` on a JSON dict (whose keys are strings,
never the integer `0`), `TypeError` on non-subscriptable values. -/
def pySubscriptZero : PyVal → Except PyErr PyVal
  | .list [] => .error .indexError
  | .list (x :: _) => .ok x
  | .str s =>
    match s.data with
    | [] => .error .indexError
    | c :: _ => .ok (.str (String.mk [c]))
  | .dict _ => .error .keyError
  | .num _ => .error .typeError
  | .bool _ => .error .typeError
  | .none => .error .typeError

/-- Model of `iter(v)` as used by `for tag in tags`: lists yield elements,
strings yield one-character strings, dicts yield their keys; other values
raise `TypeError`. -/
def pyIterate : PyVal → Except PyErr (List PyVal)
  | .list xs => .ok xs
  | .str s => .ok (s.data.map (fun c => .str (String.mk [c])))
  | .dict es => .ok (es.map (fun e => PyVal.str e.1))
  | _ => .error .typeError

/-- Model of `v.lower()`: defined for strings, `AttributeError` otherwise. -/
def pyLower : PyVal → Except PyErr String
  | .str s => .ok s.toLower
  | _ => .error .attributeError

/-- Model of `v < n` against an int: numeric and boolean operands compare,
all other values raise `TypeError` (Python 3 has no cross-type order). -/
def pyLtInt (v : PyVal) (n : ℤ) : Except PyErr Bool :=
  match v with
  | .num q => .ok (decide (q < (n : ℚ)))
  | .bool b => .ok (decide ((if b then (1 : ℤ) else 0) < n))
  | _ => .error .typeError


end PredictionPulse

namespace PredictionPulse

/-- Skip JSON whitespace. -/
def jsonWs (cs : List Char) : List Char :=
  cs.dropWhile (fun c => c == ' ' || c == '\t' || c == '\n' || c == '\r')

/-- Parse the body of a JSON string after the opening quote, returning the
content and the remainder after the closing quote.  The common escapes are
supported; `\uXXXX` is outside the modelled fragment. -/
def jsonStringChars : List Char → Option (List Char × List Char)
  | [] => Option.none
  | '"' :: rest => some ([], rest)
  | '\\' :: e :: rest =>
    let esc : Option Char :=
      match e with
      | '"' => some '"'
      | '\\' => some '\\'
      | '/' => some '/'
      | 'n' => some '\n'
      | 't' => some '\t'
      | 'r' => some '\r'
      | 'b' => some (Char.ofNat 8)
      | 'f' => some (Char.ofNat 12)
      | _ => Option.none
    match esc with
    | some c => (jsonStringChars rest).map (fun p => (c :: p.1, p.2))
    | Option.none => Option.none
  | c :: rest => (jsonStringChars rest).map (fun p => (c :: p.1, p.2))

/-- Parse an optional JSON exponent suffix and apply it to the mantissa. -/
def jsonExpTail (m : ℚ) (cs : List Char) : Option (ℚ × List Char) :=
  match cs with
  | 'e' :: rest | 'E' :: rest =>
    let (sgn, ds0) : ℤ × List Char :=
      match rest with
      | '-' :: r => (-1, r)
      | '+' :: r => (1, r)
      | r => (1, r)
    let digs := ds0.takeWhile Char.isDigit
    let rest2 := ds0.dropWhile Char.isDigit
    if digs = [] then Option.none
    else some (m * (10 : ℚ) ^ (sgn * (digitsToNat digs : ℤ)), rest2)
  | _ => some (m, cs)

/-- Parse the unsigned part of a JSON number. -/
def jsonNumberTail (cs : List Char) : Option (ℚ × List Char) :=
  let intDigits := cs.takeWhile Char.isDigit
  let rest1 := cs.dropWhile Char.isDigit
  if intDigits = [] then Option.none
  else
    match rest1 with
    | '.' :: rest2 =>
      let frac := rest2.takeWhile Char.isDigit
      let rest3 := rest2.dropWhile Char.isDigit
      if frac = [] then Option.none
      else
        jsonExpTail ((digitsToNat intDigits : ℚ) +
          (digitsToNat frac : ℚ) / (10 : ℚ) ^ frac.length) rest3
    | _ => jsonExpTail (digitsToNat intDigits : ℚ) rest1

/-- Parse a JSON number at the current position. -/
def jsonNumber (cs : List Char) : Option (ℚ × List Char) :=
  match cs with
  | '-' :: rest => (jsonNumberTail rest).map (fun p => (-p.1, p.2))
  | _ => jsonNumberTail cs

mutual

/-- Fuelled recursive-descent JSON value at the current position. -/
def jsonValue : ℕ → List Char → Option (PyVal × List Char)
  | 0, _ => Option.none
  | fuel + 1, cs =>
    match jsonWs cs with
    | 'n' :: 'u' :: 'l' :: 'l' :: rest => some (.none, rest)
    | 't' :: 'r' :: 'u' :: 'e' :: rest => some (.bool true, rest)
    | 'f' :: 'a' :: 'l' :: 's' :: 'e' :: rest => some (.bool false, rest)
    | '"' :: rest => (jsonStringChars rest).map (fun p => (.str (String.mk p.1), p.2))
    | '[' :: rest =>
      match jsonWs rest with
      | ']' :: rest2 => some (.list [], rest2)
      | rest2 => (jsonElems fuel rest2).map (fun p => (.list p.1, p.2))
    | '{' :: rest =>
      match jsonWs rest with
      | '}' :: rest2 => some (.dict [], rest2)
      | rest2 => (jsonMembers fuel rest2).map (fun p => (.dict p.1, p.2))
    | rest => (jsonNumber rest).map (fun p => (.num p.1, p.2))

/-- Parse the elements of a non-empty JSON array up to `]`. -/
def jsonElems : ℕ → List Char → Option (List PyVal × List Char)
  | 0, _ => Option.none
  | fuel + 1, cs => do
    let (v, rest) ← jsonValue fuel cs
    match jsonWs rest with
    | ',' :: rest2 => (jsonElems fuel rest2).map (fun p => (v :: p.1, p.2))
    | ']' :: rest2 => some ([v], rest2)
    | _ => Option.none

/-- Parse the members of a non-empty JSON object up to the closing brace. -/
def jsonMembers : ℕ → List Char → Option (List (String × PyVal) × List Char)
  | 0, _ => Option.none
  | fuel + 1, cs =>
    match jsonWs cs with
    | '"' :: rest => do
      let (kcs, rest1) ← jsonStringChars rest
      match jsonWs rest1 with
      | ':' :: rest2 => do
        let (v, rest3) ← jsonValue fuel rest2
        match jsonWs rest3 with
        | ',' :: rest4 => (jsonMembers fuel rest4).map (fun p => ((String.mk kcs, v) :: p.1, p.2))
        | '}' :: rest4 => some ([(String.mk kcs, v)], rest4)
        | _ => Option.none
      | _ => Option.none
    | _ => Option.none

end

/-- Model of `json.loads`: parse one value surrounded by whitespace;
any leftover input is a decode error. -/
def jsonLoads (s : String) : Except PyErr PyVal :=
  match jsonValue (s.length + 2) s.data with
  | some (v, rest) => if (jsonWs rest).isEmpty then .ok v else .error .jsonDecodeError
  | Option.none => .error .jsonDecodeError

/-- The wall-clock fields of a `datetime` (what remains after
`replace(tzinfo=None)`); Python compares naive datetimes field by field. -/
structure NaiveDT where
  year : ℕ
  month : ℕ
  day : ℕ
  hour : ℕ
  minute : ℕ
  second : ℕ
  micro : ℕ
deriving DecidableEq, Repr

/-- Lexicographic strict order on naive datetimes, as Python compares them. -/
def NaiveDT.ltb (a b : NaiveDT) : Bool :=
  if a.year ≠ b.year then decide (a.year < b.year)
  else if a.month ≠ b.month then decide (a.month < b.month)
  else if a.day ≠ b.day then decide (a.day < b.day)
  else if a.hour ≠ b.hour then decide (a.hour < b.hour)
  else if a.minute ≠ b.minute then decide (a.minute < b.minute)
  else if a.second ≠ b.second then decide (a.second < b.second)
  else decide (a.micro < b.micro)

/-- A Python `datetime`: wall-clock fields plus an optional UTC offset in
minutes (`None` for naive datetimes). -/
structure PyDateTime where
  naive : NaiveDT
  tzMinutes : Option ℤ
deriving DecidableEq, Repr

/-- `d.replace(tzinfo=None)`. -/
def PyDateTime.stripTz (d : PyDateTime) : PyDateTime :=
  { d with tzMinutes := Option.none }

/-- The comparison both filters perform:
`expiry.replace(tzinfo=None) < now.replace(tzinfo=None)`. -/
def PyDateTime.ltNaive (a b : PyDateTime) : Bool :=
  NaiveDT.ltb a.stripTz.naive b.stripTz.naive

/-- Read exactly `n` digits. -/
def takeDigits (n : ℕ) (cs : List Char) : Option (ℕ × List Char) :=
  let ds := cs.take n
  if ds.length = n ∧ ds.all Char.isDigit then some (digitsToNat ds, cs.drop n)
  else Option.none

/-- Fractional-second suffix after the dot: one to six digits, scaled to
microseconds. -/
def parseFrac (cs : List Char) : Option (ℕ × List Char) :=
  let ds := cs.takeWhile Char.isDigit
  if ds.length = 0 ∨ ds.length > 6 then Option.none
  else some (digitsToNat ds * 10 ^ (6 - ds.length), cs.drop ds.length)

/-- Optional UTC-offset suffix `±HH:MM`; the whole input must be consumed. -/
def parseOffsetTail : List Char → Option (Option ℤ)
  | [] => some Option.none
  | sign :: rest =>
    if sign = '+' ∨ sign = '-' then do
      let (hh, r1) ← takeDigits 2 rest
      match r1 with
      | ':' :: r2 => do
        let (mm, r3) ← takeDigits 2 r2
        if r3 = [] ∧ mm < 60 ∧ hh < 24 then
          let mins : ℤ := hh * 60 + mm
          some (some (if sign = '-' then -mins else mins))
        else Option.none
      | _ => Option.none
    else Option.none

/-- Time-of-day part `HH:MM[:SS[.ffffff]]` with optional UTC offset. -/
def parseTimeTail (cs : List Char) : Option (ℕ × ℕ × ℕ × ℕ × Option ℤ) := do
  let (hh, r1) ← takeDigits 2 cs
  match r1 with
  | ':' :: r2 => do
    let (mm, r3) ← takeDigits 2 r2
    match r3 with
    | ':' :: r4 => do
      let (ss, r5) ← takeDigits 2 r4
      match r5 with
      | '.' :: r6 => do
        let (us, r7) ← parseFrac r6
        let tz ← parseOffsetTail r7
        if hh < 24 ∧ mm < 60 ∧ ss < 60 then some (hh, mm, ss, us, tz) else Option.none
      | _ => do
        let tz ← parseOffsetTail r5
        if hh < 24 ∧ mm < 60 ∧ ss < 60 then some (hh, mm, ss, 0, tz) else Option.none
    | _ => do
      let tz ← parseOffsetTail r3
      if hh < 24 ∧ mm < 60 then some (hh, mm, 0, 0, tz) else Option.none
  | _ => Option.none

/-- Model of `datetime.fromisoformat` on the `YYYY-MM-DD[{T| }HH:MM[:SS
[.ffffff]]][±HH:MM]` fragment (day-of-month validation is simplified to
`1..31`); returns `none` where Python raises `ValueError`. -/
def fromIso (s : String) : Option PyDateTime := do
  let (y, r1) ← takeDigits 4 s.data
  match r1 with
  | '-' :: r2 => do
    let (mo, r3) ← takeDigits 2 r2
    match r3 with
    | '-' :: r4 => do
      let (d, r5) ← takeDigits 2 r4
      if 1 ≤ mo ∧ mo ≤ 12 ∧ 1 ≤ d ∧ d ≤ 31 then
        match r5 with
        | [] => some ⟨⟨y, mo, d, 0, 0, 0, 0⟩, Option.none⟩
        | sep :: r6 =>
          if sep = 'T' ∨ sep = ' ' then do
            let (hh, mm, ss, us, tz) ← parseTimeTail r6
            some ⟨⟨y, mo, d, hh, mm, ss, us⟩, tz⟩
          else Option.none
      else Option.none
    | _ => Option.none
  | _ => Option.none

end PredictionPulse

namespace PredictionPulse

/-- A raw source payload: an untyped key-value record.  `raw.get(k)`
returns `None` for a missing key. -/
def RawDict : Type := List (String × PyVal)

/-- `raw.get(k)` — `None` when the key is absent. -/
def rawGet (d : RawDict) (k : String) : PyVal :=
  match List.find? (fun p => p.1 == k) d with
  | some p => p.2
  | Option.none => .none

/-- `raw.get(k, dflt)` — the default applies only when the key is absent,
not when it is present with value `None`. -/
def rawGetD (d : RawDict) (k : String) (dflt : PyVal) : PyVal :=
  match List.find? (fun p => p.1 == k) d with
  | some p => p.2
  | Option.none => dflt

namespace FetchKalshi

/-- The dictionary `fetch_kalshi_markets.parse_market` returns.  Every
field except `expiry` is a raw passthrough value. -/
structure KalshiParsed where
  ticker : PyVal
  event_ticker : PyVal
  title : PyVal
  category : PyVal
  status : PyVal
  expiry : Option PyDateTime
  yes_bid : PyVal
  yes_ask : PyVal
  last_price : PyVal
  volume : PyVal
  volume_24h : PyVal
  open_interest : PyVal
  result : PyVal
deriving DecidableEq, Repr

/-- The expiry block of the Kalshi `parse_market`: a truthy `close_time`
is sent to `close_time.replace("Z", "+00:00")` — only strings have
`.replace`, so a truthy non-string raises `AttributeError`, which the
surrounding `except (ValueError, TypeError)` does not catch.  A failed
`fromisoformat` raises `ValueError`, which is caught and yields `None`. -/
def parseKalshiExpiry (close_time : PyVal) : Except PyErr (Option PyDateTime) :=
  if pyTruthy close_time then
    match close_time with
    | .str s => .ok (fromIso (pyReplace s "Z" "+00:00"))
    | _ => .error .attributeError
  else .ok Option.none

/-- `fetch_kalshi_markets.parse_market`: all fields are `raw.get`
passthroughs except `title` (an `or`-chain with `subtitle`) and `expiry`. -/
def parse_market (raw : RawDict) : Except PyErr KalshiParsed := do
  let closeTime := pyOr (rawGet raw "close_time") (rawGet raw "expiration_time")
  let expiry ← parseKalshiExpiry closeTime
  Except.ok
    { ticker := rawGet raw "ticker"
      event_ticker := rawGet raw "event_ticker"
      title := pyOr (rawGet raw "title") (rawGet raw "subtitle")
      category := rawGet raw "category"
      status := rawGet raw "status"
      expiry := expiry
      yes_bid := rawGet raw "yes_bid"
      yes_ask := rawGet raw "yes_ask"
      last_price := rawGet raw "last_price"
      volume := rawGet raw "volume"
      volume_24h := rawGet raw "volume_24h"
      open_interest := rawGet raw "open_interest"
      result := rawGet raw "result" }

/-- Decision for one market in `filter_markets`: `ok true` keeps it. -/
def keepMarket (category : Option String) (min_volume : Option ℤ) (future_only : Bool)
    (now : PyDateTime) (m : KalshiParsed) : Except PyErr Bool := do
  -- category filter: `if category:` (None and "" are falsy)
  let catOk ←
    match category with
    | some c =>
      if c ≠ "" then do
        let marketCategory ← pyLower (pyOr m.category (.str ""))
        Except.ok (pyInStr c.toLower marketCategory)
      else Except.ok true
    | Option.none => Except.ok true
  if !catOk then Except.ok false
  else do
    -- volume filter: `if min_volume:` (None and 0 are falsy)
    let volOk ←
      match min_volume with
      | some mv =>
        if mv ≠ 0 then do
          let vol := pyOr (pyOr m.volume m.volume_24h) (.num 0)
          let lt ← pyLtInt vol mv
          Except.ok (!lt)
        else Except.ok true
      | Option.none => Except.ok true
    if !volOk then Except.ok false
    else
      -- future-expiry filter: strict `<` on offset-stripped datetimes
      match m.expiry with
      | some e =>
        if future_only then Except.ok (!PyDateTime.ltNaive e now)
        else Except.ok true
      | Option.none => Except.ok true

/-- `fetch_kalshi_markets.filter_markets`. -/
def filter_markets (markets : List KalshiParsed) (category : Option String)
    (min_volume : Option ℤ) (future_only : Bool) (now : PyDateTime) :
    Except PyErr (List KalshiParsed) :=
  match markets with
  | [] => .ok []
  | m :: rest => do
    let keep ← keepMarket category min_volume future_only now m
    let tail ← filter_markets rest category min_volume future_only now
    Except.ok (if keep then m :: tail else tail)

end FetchKalshi

namespace FetchPoly

/-- The dictionary `fetch_polymarket.parse_market` returns. -/
structure PolyParsed where
  condition_id : PyVal
  question_id : PyVal
  slug : PyVal
  title : PyVal
  category : PyVal
  status : PyVal
  expiry : Option PyDateTime
  yes_price : PyVal
  volume : PyVal
  liquidity : PyVal
  outcomes : PyVal
deriving DecidableEq, Repr

/-- The expiry block of the Polymarket `parse_market`: non-strings are
checked with `isinstance` before `.replace`, so this block never raises. -/
def parsePolyExpiry (end_date : PyVal) : Option PyDateTime :=
  if pyTruthy end_date then
    match end_date with
    | .str s => fromIso (pyReplace s "Z" "+00:00")
    | _ => Option.none
  else Option.none

/-- Exception kinds named in the handler
`except (json.JSONDecodeError, IndexError, TypeError, ValueError)`. -/
def caughtByPriceHandler : PyErr → Bool
  | .jsonDecodeError => true
  | .indexError => true
  | .typeError => true
  | .valueError => true
  | _ => false

/-- The price block of the Polymarket `parse_market`.  In the string
branch `import json` has run, so the handler catches exactly the four
named kinds (a `KeyError` from subscripting a decoded object escapes).
In the non-string branch `import json` never ran: evaluating the handler
tuple raises `UnboundLocalError`, replacing the original exception.  In
the fallback branch `float(...)` is not wrapped in any try at all. -/
def parsePolyPrice (outcomePrices bestAsk lastTradePrice : PyVal) : Except PyErr PyVal :=
  if pyTruthy outcomePrices then
    match outcomePrices with
    | .str s =>
      match jsonLoads s with
      | .error _ => .ok .none
      | .ok prices =>
        match pySubscriptZero prices with
        | .error e => if caughtByPriceHandler e then .ok .none else .error e
        | .ok p0 =>
          match pyFloat p0 with
          | .error e => if caughtByPriceHandler e then .ok .none else .error e
          | .ok q => .ok (.num (q * 100))
    | v =>
      match pySubscriptZero v with
      | .error _ => .error .unboundLocalError
      | .ok p0 =>
        match pyFloat p0 with
        | .error _ => .error .unboundLocalError
        | .ok q => .ok (.num (q * 100))
  else
    let yp := pyOr bestAsk lastTradePrice
    if pyTruthy yp then
      match pyFloat yp with
      | .error e => .error e
      | .ok q => .ok (.num (q * 100))
    else .ok yp

/-- The fixed category vocabulary of `extract_category`. -/
def category_keywords : List String :=
  ["politics", "crypto", "sports", "science", "entertainment", "economics"]

/-- First keyword (in vocabulary order) occurring in one tag; non-string
tags contribute the empty search text. -/
def tagKeyword (tag : PyVal) : Option String :=
  let tagLower := match tag with | .str s => s.toLower | _ => ""
  List.find? (fun kw => pyInStr kw tagLower) category_keywords

/-- First tag with any keyword match, scanning tags in order. -/
def firstKeyword : List PyVal → Option String
  | [] => Option.none
  | t :: ts =>
    match tagKeyword t with
    | some kw => some kw
    | Option.none => firstKeyword ts

/-- `fetch_polymarket.extract_category`: falsy tags give `None`; iterating
a non-iterable raises; a keyword match returns the capitalized keyword;
otherwise `tags[0]` is returned verbatim (a `KeyError` on dicts). -/
def extract_category (tags : PyVal) : Except PyErr PyVal :=
  if !pyTruthy tags then .ok .none
  else
    match pyIterate tags with
    | .error e => .error e
    | .ok elems =>
      match firstKeyword elems with
      | some kw => .ok (.str kw.capitalize)
      | Option.none => pySubscriptZero tags

/-- `int(float(v))` with truncation toward zero. -/
def intOfFloat (q : ℚ) : ℤ :=
  Int.tdiv q.num q.den

/-- The volume block of the Polymarket `parse_market`: a falsy value
passes through unchanged; conversion failures are caught and give `None`. -/
def parsePolyVolume (volume : PyVal) : PyVal :=
  if pyTruthy volume then
    match pyFloat volume with
    | .ok q => .num (intOfFloat q : ℚ)
    | .error _ => .none
  else volume

/-- `fetch_polymarket.parse_market`.  The expiry, price and volume blocks
run (in that order) before the result dictionary is built; the category
entry short-circuits to `extract_category` only when the explicit
`category` field is falsy. -/
def parse_market (raw : RawDict) : Except PyErr PolyParsed := do
  let expiry := parsePolyExpiry (pyOr (rawGet raw "endDate") (rawGet raw "end_date_iso"))
  let yes_price ← parsePolyPrice (rawGet raw "outcomePrices")
    (rawGet raw "bestAsk") (rawGet raw "lastTradePrice")
  let volume := parsePolyVolume (pyOr (rawGet raw "volume") (rawGet raw "volumeNum"))
  let categoryRaw := rawGet raw "category"
  let category ←
    if pyTruthy categoryRaw then Except.ok categoryRaw
    else extract_category (rawGetD raw "tags" (.list []))
  Except.ok
    { condition_id := pyOr (rawGet raw "conditionId") (rawGet raw "condition_id")
      question_id := pyOr (rawGet raw "questionId") (rawGet raw "question_id")
      slug := rawGet raw "slug"
      title := pyOr (rawGet raw "question") (rawGet raw "title")
      category := category
      status := .str (if pyTruthy (rawGet raw "active") then "open" else "closed")
      expiry := expiry
      yes_price := yes_price
      volume := volume
      liquidity := rawGet raw "liquidity"
      outcomes := rawGet raw "outcomes" }

/-- Decision for one market in the Polymarket `filter_markets`;
records lacking a truthy `condition_id` or `title` are skipped first. -/
def keepMarket (category : Option String) (min_volume : Option ℤ) (future_only : Bool)
    (now : PyDateTime) (m : PolyParsed) : Except PyErr Bool :=
  if !(pyTruthy m.condition_id && pyTruthy m.title) then Except.ok false
  else do
    let catOk ←
      match category with
      | some c =>
        if c ≠ "" then do
          let marketCategory ← pyLower (pyOr m.category (.str ""))
          Except.ok (pyInStr c.toLower marketCategory)
        else Except.ok true
      | Option.none => Except.ok true
    if !catOk then Except.ok false
    else do
      let volOk ←
        match min_volume with
        | some mv =>
          if mv ≠ 0 then do
            let vol := pyOr m.volume (.num 0)
            let lt ← pyLtInt vol mv
            Except.ok (!lt)
          else Except.ok true
        | Option.none => Except.ok true
      if !volOk then Except.ok false
      else
        -- the expiry comparison sits in a `try: ... except: pass`, but a
        -- datetime always has `.replace`, so the guard never fires
        match m.expiry with
        | some e =>
          if future_only then Except.ok (!PyDateTime.ltNaive e now)
          else Except.ok true
        | Option.none => Except.ok true

/-- `fetch_polymarket.filter_markets`. -/
def filter_markets (markets : List PolyParsed) (category : Option String)
    (min_volume : Option ℤ) (future_only : Bool) (now : PyDateTime) :
    Except PyErr (List PolyParsed) :=
  match markets with
  | [] => .ok []
  | m :: rest => do
    let keep ← keepMarket category min_volume future_only now m
    let tail ← filter_markets rest category min_volume future_only now
    Except.ok (if keep then m :: tail else tail)

end FetchPoly

end PredictionPulse

namespace PredictionPulse

namespace Db

/-- Column names of the `markets` table as declared by `db.Market`.
Note: there is no `source` column. -/
def marketColumns : List String :=
  ["id", "market_id", "title", "category", "status", "expiry_ts", "created_at", "updated_at"]

/-- Column names of the `contracts` table as declared by `db.Contract`. -/
def contractColumns : List String :=
  ["id", "market_id", "contract_ticker", "side", "description", "created_at"]

/-- Column names of the `prices` table as declared by `db.Price`. -/
def priceColumns : List String :=
  ["id", "contract_id", "timestamp", "bid_price", "ask_price", "last_price", "volume_24h"]

/-- A row of `markets`.  SQLite stores whatever dynamically typed value
the statement supplies, so identifier and text columns hold `PyVal`.
Timestamps are abstract clock tokens. -/
structure MarketRow where
  market_id : PyVal
  title : PyVal
  category : PyVal
  status : PyVal
  expiry_ts : Option PyDateTime
  created_at : ℕ
  updated_at : ℕ
deriving DecidableEq, Repr

/-- A row of `contracts`; `id` is the autoincrement primary key. -/
structure ContractRow where
  id : ℕ
  market_id : PyVal
  contract_ticker : PyVal
  side : PyVal
  description : PyVal
  created_at : ℕ
deriving DecidableEq, Repr

/-- A row of `prices`. -/
structure PriceRow where
  contract_id : ℕ
  timestamp : ℕ
  bid_price : PyVal
  ask_price : PyVal
  last_price : PyVal
  volume_24h : PyVal
deriving DecidableEq, Repr

/-- The three-table store plus the autoincrement counter for contracts. -/
structure Store where
  markets : List MarketRow
  contracts : List ContractRow
  prices : List PriceRow
  nextContractId : ℕ
deriving DecidableEq, Repr

/-- A freshly initialised database. -/
def Store.empty : Store := ⟨[], [], [], 0⟩

/-- Semantics of executing a sqlite upsert on `markets`: SQLAlchemy first
compiles the statement (a `.values(...)` key naming no mapped column is a
`CompileError`), then the engine may fail (`fail` injects an
environment-dependent `OperationalError`), then NOT NULL constraints on
`market_id` and `title` are checked; on conflict with an existing
`market_id` the mutable fields and `updated_at` are overwritten and
`created_at` is preserved, otherwise a new row is inserted. -/
def upsertMarketExec (cols : List String) (fail : Bool)
    (market_id title category status : PyVal) (expiry : Option PyDateTime)
    (now : ℕ) (s : Store) : Except PyErr Store :=
  if !(cols.all (fun c => marketColumns.contains c)) then .error .compileError
  else if fail then .error .dbError
  else if market_id = PyVal.none ∨ title = PyVal.none then .error .integrityError
  else if s.markets.any (fun r => decide (r.market_id = market_id)) then
    .ok { s with markets := s.markets.map (fun r =>
      if r.market_id = market_id then
        { r with title := title, category := category, status := status,
                 expiry_ts := expiry, updated_at := now }
      else r) }
  else
    .ok { s with markets := s.markets ++
      [{ market_id := market_id, title := title, category := category,
         status := status, expiry_ts := expiry, created_at := now, updated_at := now }] }

/-- Semantics of executing a sqlite upsert on `contracts`, returning the
row the subsequent `scalar_one()` select sees.  On conflict only `side`
and `description` are overwritten (`market_id` and `created_at` keep
their first-insertion values). -/
def upsertContractExec (cols : List String) (fail : Bool)
    (market_id ticker side description : PyVal) (now : ℕ) (s : Store) :
    Except PyErr (Store × ContractRow) :=
  if !(cols.all (fun c => contractColumns.contains c)) then .error .compileError
  else if fail then .error .dbError
  else if market_id = PyVal.none ∨ ticker = PyVal.none then .error .integrityError
  else
    match List.find? (fun r => decide (r.contract_ticker = ticker)) s.contracts with
    | some old =>
      let updated : ContractRow := { old with side := side, description := description }
      .ok ({ s with contracts := s.contracts.map (fun r =>
        if r.contract_ticker = ticker then updated else r) }, updated)
    | Option.none =>
      let row : ContractRow :=
        { id := s.nextContractId, market_id := market_id, contract_ticker := ticker,
          side := side, description := description, created_at := now }
      let s2 : Store :=
        { s with contracts := s.contracts ++ [row], nextContractId := s.nextContractId + 1 }
      .ok (s2, row)

/-- `session.add(Price(...))`: a plain append, never an upsert. -/
def insertPriceExec (contract_id : ℕ) (bid ask last volume : PyVal) (now : ℕ)
    (s : Store) : Store :=
  { s with prices := s.prices ++
    [{ contract_id := contract_id, timestamp := now, bid_price := bid,
       ask_price := ask, last_price := last, volume_24h := volume }] }

end Db

/-- The stats dictionary `ingest_markets` builds and returns. -/
structure IngestionStats where
  markets_processed : ℕ
  contracts_processed : ℕ
  prices_inserted : ℕ
  errors : List String
deriving DecidableEq, Repr

/-- The zero-initialised stats dictionary. -/
def IngestionStats.init : IngestionStats := ⟨0, 0, 0, []⟩

/-- Environment-dependent store failures: whether the market, contract or
price write of the i-th batch element fails, and whether the final commit
fails.  `honest` injects none. -/
structure StoreBehavior where
  failMarketOp : ℕ → Bool
  failContractOp : ℕ → Bool
  failPriceOp : ℕ → Bool
  failCommit : Bool

/-- A store that never fails for environmental reasons. -/
def StoreBehavior.honest : StoreBehavior :=
  ⟨fun _ => false, fun _ => false, fun _ => false, false⟩

/-- Outcome of the per-market body: the (possibly partially written)
session state, the three stat increments, and the captured exception if
one of the three writes raised. -/
structure StepResult where
  pending : Db.Store
  dm : ℕ
  dc : ℕ
  dp : ℕ
  err : Option PyErr
deriving Repr

namespace IngestKalshi

open FetchKalshi Db

/-- The column set of the `.values(...)` call in
`ingest_kalshi.upsert_market`. -/
def marketValueCols : List String :=
  ["market_id", "title", "category", "status", "expiry_ts", "updated_at"]

/-- `ingest_kalshi.upsert_market`: `market_id` is the parsed `ticker`
verbatim (no source tag is prepended). -/
def upsert_market (fail : Bool) (s : Store) (m : KalshiParsed) (now : ℕ) :
    Except PyErr (Store × MarketRow) := do
  let s2 ← upsertMarketExec marketValueCols fail m.ticker m.title m.category
    m.status m.expiry now s
  match List.find? (fun r => decide (r.market_id = m.ticker)) s2.markets with
  | some r => Except.ok (s2, r)
  | Option.none => Except.error .dbError

/-- The column set of the `.values(...)` call in
`ingest_kalshi.upsert_contract`. -/
def contractValueCols : List String :=
  ["market_id", "contract_ticker", "side", "description"]

/-- `ingest_kalshi.upsert_contract` with `side="YES"`. -/
def upsert_contract (fail : Bool) (s : Store) (market_id ticker : PyVal) (now : ℕ) :
    Except PyErr (Store × ContractRow) :=
  upsertContractExec contractValueCols fail market_id ticker (.str "YES")
    (.str ("YES contract for " ++ pyStrOf market_id)) now s

/-- `ingest_kalshi.insert_price_snapshot`. -/
def insert_price_snapshot (s : Store) (contract_id : ℕ)
    (bid ask last volume_24h : PyVal) (now : ℕ) : Store :=
  insertPriceExec contract_id bid ask last volume_24h now s

/-- The body of the per-market `try` block: upsert market, bump
`markets_processed`, upsert contract, bump `contracts_processed`, append
the snapshot, bump `prices_inserted`; a raise at any write leaves the
earlier session writes and increments in place. -/
def ingestOne (beh : StoreBehavior) (idx : ℕ) (m : KalshiParsed) (now : ℕ)
    (s : Store) : StepResult :=
  match upsert_market (beh.failMarketOp idx) s m now with
  | .error e => ⟨s, 0, 0, 0, some e⟩
  | .ok (s1, market) =>
    match upsert_contract (beh.failContractOp idx) s1 market.market_id m.ticker now with
    | .error e => ⟨s1, 1, 0, 0, some e⟩
    | .ok (s2, contract) =>
      if beh.failPriceOp idx then ⟨s2, 1, 1, 0, some .dbError⟩
      else
        ⟨insert_price_snapshot s2 contract.id m.yes_bid m.yes_ask m.last_price
          m.volume_24h now, 1, 1, 1, Option.none⟩

/-- The `for m in markets` loop: a falsy `ticker` is skipped silently;
a captured per-market exception appends `"<ticker>: <message>"` to
`errors` and processing continues. -/
def ingestLoop (beh : StoreBehavior) (now : ℕ) :
    List KalshiParsed → ℕ → Store → IngestionStats → Store × IngestionStats
  | [], _, s, st => (s, st)
  | m :: rest, idx, s, st =>
    if !pyTruthy m.ticker then ingestLoop beh now rest (idx + 1) s st
    else
      let r := ingestOne beh idx m now s
      let st2 : IngestionStats :=
        { markets_processed := st.markets_processed + r.dm
          contracts_processed := st.contracts_processed + r.dc
          prices_inserted := st.prices_inserted + r.dp
          errors := st.errors ++
            (match r.err with
             | some e => [pyStrOf m.ticker ++ ": " ++ e.msg]
             | Option.none => []) }
      ingestLoop beh now rest (idx + 1) r.pending st2

/-- `ingest_kalshi.ingest_markets`: run the loop against the session,
then `session.commit()`; any uncaught exception (here: a commit failure)
triggers `session.rollback()` — the committed store is unchanged — and
propagates to the caller. -/
def ingest_markets (beh : StoreBehavior) (markets : List KalshiParsed) (now : ℕ)
    (db : Store) : Except PyErr IngestionStats × Store :=
  let (pending, stats) := ingestLoop beh now markets 0 db IngestionStats.init
  if beh.failCommit then (.error .dbError, db) else (.ok stats, pending)

end IngestKalshi

namespace IngestPoly

open FetchPoly Db

/-- The column set of the `.values(...)` call in
`ingest_polymarket.upsert_market` — it includes `source`, which is not a
column of `db.Market`. -/
def marketValueCols : List String :=
  ["market_id", "source", "title", "category", "status", "expiry_ts", "updated_at"]

/-- `ingest_polymarket.upsert_market`:
`market_id = f"poly_{market_data['condition_id']}"`, and the statement
also carries `source="polymarket"` (a value with no column to land in). -/
def upsert_market (fail : Bool) (s : Store) (m : PolyParsed) (now : ℕ) :
    Except PyErr (Store × MarketRow) := do
  let market_id := PyVal.str ("poly_" ++ pyStrOf m.condition_id)
  let s2 ← upsertMarketExec marketValueCols fail market_id m.title m.category
    m.status m.expiry now s
  match List.find? (fun r => decide (r.market_id = market_id)) s2.markets with
  | some r => Except.ok (s2, r)
  | Option.none => Except.error .dbError

/-- The column set of the `.values(...)` call in
`ingest_polymarket.upsert_contract`. -/
def contractValueCols : List String :=
  ["market_id", "contract_ticker", "side", "description"]

/-- `ingest_polymarket.upsert_contract` with `side="YES"`:
`contract_ticker = f"poly_{condition_id}_{side}"`. -/
def upsert_contract (fail : Bool) (s : Store) (market_id condition_id : PyVal) (now : ℕ) :
    Except PyErr (Store × ContractRow) :=
  upsertContractExec contractValueCols fail market_id
    (.str ("poly_" ++ pyStrOf condition_id ++ "_YES"))
    (.str "YES") (.str "YES contract") now s

/-- `ingest_polymarket.insert_price_snapshot`. -/
def insert_price_snapshot (s : Store) (contract_id : ℕ)
    (bid ask last volume : PyVal) (now : ℕ) : Store :=
  insertPriceExec contract_id bid ask last volume now s

/-- The body of the per-market `try` block of the Polymarket engine. -/
def ingestOne (beh : StoreBehavior) (idx : ℕ) (m : PolyParsed) (now : ℕ)
    (s : Store) : StepResult :=
  match upsert_market (beh.failMarketOp idx) s m now with
  | .error e => ⟨s, 0, 0, 0, some e⟩
  | .ok (s1, market) =>
    match upsert_contract (beh.failContractOp idx) s1 market.market_id m.condition_id now with
    | .error e => ⟨s1, 1, 0, 0, some e⟩
    | .ok (s2, contract) =>
      if beh.failPriceOp idx then ⟨s2, 1, 1, 0, some .dbError⟩
      else
        ⟨insert_price_snapshot s2 contract.id .none .none m.yes_price m.volume now,
          1, 1, 1, Option.none⟩

/-- The `for m in markets` loop of the Polymarket engine: a falsy
`condition_id` is skipped silently. -/
def ingestLoop (beh : StoreBehavior) (now : ℕ) :
    List PolyParsed → ℕ → Store → IngestionStats → Store × IngestionStats
  | [], _, s, st => (s, st)
  | m :: rest, idx, s, st =>
    if !pyTruthy m.condition_id then ingestLoop beh now rest (idx + 1) s st
    else
      let r := ingestOne beh idx m now s
      let st2 : IngestionStats :=
        { markets_processed := st.markets_processed + r.dm
          contracts_processed := st.contracts_processed + r.dc
          prices_inserted := st.prices_inserted + r.dp
          errors := st.errors ++
            (match r.err with
             | some e => [pyStrOf m.condition_id ++ ": " ++ e.msg]
             | Option.none => []) }
      ingestLoop beh now rest (idx + 1) r.pending st2

/-- `ingest_polymarket.ingest_markets`, with the same
commit-or-rollback discipline as the Kalshi engine. -/
def ingest_markets (beh : StoreBehavior) (markets : List PolyParsed) (now : ℕ)
    (db : Store) : Except PyErr IngestionStats × Store :=
  let (pending, stats) := ingestLoop beh now markets 0 db IngestionStats.init
  if beh.failCommit then (.error .dbError, db) else (.ok stats, pending)

end IngestPoly

end PredictionPulse

namespace PredictionPulse

/-- A non-`None` value: `pyTruthy` implies it. -/
theorem pyTruthy_ne_none {v : PyVal} (h : pyTruthy v = true) : v ≠ PyVal.none := by
  intro hv
  subst hv
  simp [pyTruthy] at h

namespace IngestKalshi

open FetchKalshi Db

/-- A batch element the Kalshi engine fully processes when the store does
not fail: a truthy `ticker` (so the loop does not skip it) and a
non-`None` `title` (so the NOT NULL constraint accepts it). -/
def Writable (m : KalshiParsed) : Prop :=
  pyTruthy m.ticker = true ∧ m.title ≠ PyVal.none

instance (m : KalshiParsed) : Decidable (Writable m) := by
  unfold Writable
  infer_instance

/-- A batch with pairwise-distinct tickers, all writable. -/
def ValidBatch (ms : List KalshiParsed) : Prop :=
  (∀ m ∈ ms, Writable m) ∧ (ms.map (fun m => m.ticker)).Nodup

instance (ms : List KalshiParsed) : Decidable (ValidBatch ms) := by
  unfold ValidBatch
  infer_instance

/-- The market row a first-time ingestion of `m` at time `now` inserts. -/
def canonMRow (m : KalshiParsed) (now : ℕ) : MarketRow :=
  ⟨m.ticker, m.title, m.category, m.status, m.expiry, now, now⟩

/-- The same market row after a second ingestion at time `t2` has
refreshed `updated_at` (and only that). -/
def canonMRow2 (m : KalshiParsed) (t1 t2 : ℕ) : MarketRow :=
  ⟨m.ticker, m.title, m.category, m.status, m.expiry, t1, t2⟩

/-- The contract row a first-time ingestion of `m` inserts under
autoincrement id `nid`. -/
def canonCRow (m : KalshiParsed) (nid now : ℕ) : ContractRow :=
  ⟨nid, m.ticker, m.ticker, .str "YES",
   .str ("YES contract for " ++ pyStrOf m.ticker), now⟩

/-- The price snapshot appended for `m` against contract id `nid`. -/
def canonPRow (m : KalshiParsed) (nid now : ℕ) : PriceRow :=
  ⟨nid, now, m.yes_bid, m.yes_ask, m.last_price, m.volume_24h⟩

/-- Market rows inserted for a fresh batch. -/
def canonMarkets (now : ℕ) (ms : List KalshiParsed) : List MarketRow :=
  ms.map (fun m => canonMRow m now)

/-- Market rows after the batch has been re-ingested at `t2`. -/
def canonMarkets2 (t1 t2 : ℕ) (ms : List KalshiParsed) : List MarketRow :=
  ms.map (fun m => canonMRow2 m t1 t2)

/-- Contract rows inserted for a fresh batch, ids starting at `nid`. -/
def canonContracts (now : ℕ) : List KalshiParsed → ℕ → List ContractRow
  | [], _ => []
  | m :: rest, nid => canonCRow m nid now :: canonContracts now rest (nid + 1)

/-- Price snapshots appended for a batch, contract ids starting at `nid`. -/
def canonPrices (now : ℕ) : List KalshiParsed → ℕ → List PriceRow
  | [], _ => []
  | m :: rest, nid => canonPRow m nid now :: canonPrices now rest (nid + 1)

/-- No market row of `s` is keyed `k` (stated as the Boolean scan the
upsert performs). -/
def marketKeyFree (s : Store) (k : PyVal) : Prop :=
  s.markets.any (fun r => decide (r.market_id = k)) = false

/-- No contract row of `s` is keyed `k` (stated as the `find?` the upsert
performs). -/
def contractKeyFree (s : Store) (k : PyVal) : Prop :=
  List.find? (fun r => decide (r.contract_ticker = k)) s.contracts = Option.none

/-- `s` contains none of the batch's keys. -/
def FreshFor (ms : List KalshiParsed) (s : Store) : Prop :=
  ∀ m ∈ ms, marketKeyFree s m.ticker ∧ contractKeyFree s m.ticker

end IngestKalshi

namespace FetchKalshi

/-- A sample parsed Kalshi market with the given `ticker` and `title`. -/
def mkKalshi (ticker title : PyVal) : KalshiParsed :=
  { ticker := ticker, event_ticker := .none, title := title, category := .none,
    status := .str "open", expiry := Option.none, yes_bid := .num 40,
    yes_ask := .num 42, last_price := .num 41, volume := .num 100,
    volume_24h := .num 10, open_interest := .none, result := .none }

end FetchKalshi

namespace FetchPoly

/-- A sample parsed Polymarket market with the given `condition_id` and
`title`. -/
def mkPoly (condition_id title : PyVal) : PolyParsed :=
  { condition_id := condition_id, question_id := .none, slug := .none,
    title := title, category := .none, status := .str "open",
    expiry := Option.none, yes_price := .num 62, volume := .num 5,
    liquidity := .none, outcomes := .none }

end FetchPoly

end PredictionPulse

namespace PredictionPulse

/-- Decidable equality for `Except` results (not provided by core). -/
instance {e a : Type} [DecidableEq e] [DecidableEq a] : DecidableEq (Except e a) := fun x y =>
  match x, y with
  | .ok u, .ok v =>
    match decEq u v with
    | isTrue h => isTrue (by rw [h])
    | isFalse h => isFalse (fun hh => h (by injection hh))
  | .error u, .error v =>
    match decEq u v with
    | isTrue h => isTrue (by rw [h])
    | isFalse h => isFalse (fun hh => h (by injection hh))
  | .ok _, .error _ => isFalse (fun h => Except.noConfusion h)
  | .error _, .ok _ => isFalse (fun h => Except.noConfusion h)

theorem pyTruthy_str_iff {s : String} : pyTruthy (PyVal.str s) = true ↔ s ≠ "" := by
  simp [pyTruthy]

/-- A naive datetime is never strictly before itself. -/
theorem NaiveDT.ltb_irrefl (a : NaiveDT) : NaiveDT.ltb a a = false := by
  simp [NaiveDT.ltb]

theorem stripTz_naive (d : PyDateTime) : d.stripTz.naive = d.naive := rfl

theorem ltNaive_eq_ltb (a b : PyDateTime) :
    PyDateTime.ltNaive a b = NaiveDT.ltb a.naive b.naive := rfl

/-- Claim C9: the spec requires a `source` column on the `markets`
relation, recorded for every ingested row.  The code disagrees with
itself: `db.Market` declares no such column, so the Kalshi engine stores
no source at all and the Polymarket engine — which does pass
`source="polymarket"` — fails statement compilation on every market
(`Unconsumed column names: source`), writing nothing and recording one
error per market. -/
theorem markets_source_column_missing :
    ("source" ∈ Db.marketColumns → False) ∧
    IngestPoly.ingest_markets StoreBehavior.honest
        [FetchPoly.mkPoly (.str "abc") (.str "Q?")] 1 Db.Store.empty =
      (.ok ⟨0, 0, 0, ["abc: " ++ PyErr.msg .compileError]⟩, Db.Store.empty) := by
  constructor
  · decide
  · rfl

/-- Claim C7 counterexample: a market whose expiry carries exactly the
wall-clock fields of `now` is retained by both filters (the code uses a
strict `<`), where the claim says it is excluded. -/
theorem expiry_equal_now_retained_cex :
    FetchKalshi.filter_markets
        [{ FetchKalshi.mkKalshi (.str "T1") (.str "Q") with
            expiry := some ⟨⟨2026, 10, 12, 0, 0, 0, 0⟩, some 0⟩ }]
        Option.none Option.none true ⟨⟨2026, 10, 12, 0, 0, 0, 0⟩, some 0⟩ =
      .ok [{ FetchKalshi.mkKalshi (.str "T1") (.str "Q") with
              expiry := some ⟨⟨2026, 10, 12, 0, 0, 0, 0⟩, some 0⟩ }] ∧
    FetchPoly.filter_markets
        [{ FetchPoly.mkPoly (.str "c1") (.str "Q") with
            expiry := some ⟨⟨2026, 10, 12, 0, 0, 0, 0⟩, some 0⟩ }]
        Option.none Option.none true ⟨⟨2026, 10, 12, 0, 0, 0, 0⟩, some 0⟩ =
      .ok [{ FetchPoly.mkPoly (.str "c1") (.str "Q") with
              expiry := some ⟨⟨2026, 10, 12, 0, 0, 0, 0⟩, some 0⟩ }] := by
  constructor
  · rfl
  · rfl

/-- Claim C7 (amended): with `future_only` set, a market whose expiry is
strictly before `now` on the offset-stripped fields is excluded; a market
whose expiry equals `now` on those fields is retained (the comparison is
strict); a market with `expiry = None` is always retained — in both
adapters (for Polymarket, provided the identity/title skip passes). -/
theorem future_only_boundary (mk : FetchKalshi.KalshiParsed)
    (mp : FetchPoly.PolyParsed) (e now : PyDateTime)
    (hidp : pyTruthy mp.condition_id = true) (htp : pyTruthy mp.title = true) :
    (mk.expiry = some e → e.naive = now.naive →
      FetchKalshi.keepMarket Option.none Option.none true now mk = .ok true) ∧
    (mk.expiry = some e → NaiveDT.ltb e.naive now.naive = true →
      FetchKalshi.keepMarket Option.none Option.none true now mk = .ok false) ∧
    (mk.expiry = Option.none →
      FetchKalshi.keepMarket Option.none Option.none true now mk = .ok true) ∧
    (mp.expiry = some e → e.naive = now.naive →
      FetchPoly.keepMarket Option.none Option.none true now mp = .ok true) ∧
    (mp.expiry = some e → NaiveDT.ltb e.naive now.naive = true →
      FetchPoly.keepMarket Option.none Option.none true now mp = .ok false) ∧
    (mp.expiry = Option.none →
      FetchPoly.keepMarket Option.none Option.none true now mp = .ok true) := by
  refine ⟨?_, ?_, ?_, ?_, ?_, ?_⟩
  · intro he hn
    simp [FetchKalshi.keepMarket, he, ltNaive_eq_ltb, hn, NaiveDT.ltb_irrefl, bind, Except.bind]
  · intro he hlt
    simp [FetchKalshi.keepMarket, he, ltNaive_eq_ltb, hlt, bind, Except.bind]
  · intro he
    simp [FetchKalshi.keepMarket, he, bind, Except.bind]
  · intro he hn
    simp [FetchPoly.keepMarket, hidp, htp, he, ltNaive_eq_ltb, hn, NaiveDT.ltb_irrefl, bind, Except.bind]
  · intro he hlt
    simp [FetchPoly.keepMarket, hidp, htp, he, ltNaive_eq_ltb, hlt, bind, Except.bind]
  · intro he
    simp [FetchPoly.keepMarket, hidp, htp, he, bind, Except.bind]

/-- Witness for the amended C7 theorem at concrete inputs. -/
theorem future_only_boundary_witness :
    FetchKalshi.keepMarket Option.none Option.none true ⟨⟨2026, 1, 1, 0, 0, 0, 0⟩, Option.none⟩
      { FetchKalshi.mkKalshi (.str "T1") (.str "Q") with
          expiry := some ⟨⟨2026, 1, 1, 0, 0, 0, 0⟩, some 0⟩ } = .ok true := by
  have h := future_only_boundary
    { FetchKalshi.mkKalshi (.str "T1") (.str "Q") with
        expiry := some ⟨⟨2026, 1, 1, 0, 0, 0, 0⟩, some 0⟩ }
    (FetchPoly.mkPoly (.str "c1") (.str "Q"))
    ⟨⟨2026, 1, 1, 0, 0, 0, 0⟩, some 0⟩ ⟨⟨2026, 1, 1, 0, 0, 0, 0⟩, Option.none⟩
    (by decide) (by decide)
  exact h.1 rfl rfl

end PredictionPulse

namespace PredictionPulse

/-- Claim C6 counterexample: a truthy non-string `close_time` makes the
Kalshi `parse_market` raise `AttributeError` (from `.replace` on a
non-string, not caught by `except (ValueError, TypeError)`) instead of
degrading `expiry` to `None`. -/
theorem kalshi_expiry_nonstring_raises_cex :
    FetchKalshi.parse_market [("ticker", PyVal.str "T"), ("close_time", PyVal.num 5)] =
      .error .attributeError := by
  rfl

/-- Any `float()` failure is of a kind named by the Polymarket price
handler (`TypeError` or `ValueError`). -/
theorem pyFloat_error_caught {p : PyVal} {e : PyErr} (h : pyFloat p = .error e) :
    FetchPoly.caughtByPriceHandler e = true := by
  cases p with
  | num q => simp [pyFloat] at h
  | bool b => simp [pyFloat] at h
  | str s =>
    cases hp : pyFloatStr s with
    | some q => simp [pyFloat, hp] at h
    | none =>
      simp [pyFloat, hp] at h
      subst h
      rfl
  | none =>
    simp [pyFloat] at h
    subst h
    rfl
  | list xs =>
    simp [pyFloat] at h
    subst h
    rfl
  | dict es =>
    simp [pyFloat] at h
    subst h
    rfl

/-- Claim C6 (amended): an unparsable or missing expiry degrades to
`None` without failing the record in the Polymarket adapter, and in the
Kalshi adapter whenever the expiry value is missing/falsy or a string;
but a truthy non-string expiry value makes the Kalshi adapter raise
(see the counterexample). -/
theorem expiry_failures_degrade (raw : RawDict) (s : String) (v cat : PyVal) :
    (pyTruthy (pyOr (rawGet raw "close_time") (rawGet raw "expiration_time")) = false →
      ∃ r, FetchKalshi.parse_market raw = .ok r ∧ r.expiry = Option.none) ∧
    (pyOr (rawGet raw "close_time") (rawGet raw "expiration_time") = .str s →
      ∃ r, FetchKalshi.parse_market raw = .ok r ∧
        r.expiry = fromIso (pyReplace s "Z" "+00:00")) ∧
    (FetchPoly.parsePolyPrice (rawGet raw "outcomePrices") (rawGet raw "bestAsk")
        (rawGet raw "lastTradePrice") = .ok v →
      (pyTruthy (rawGet raw "category") = true ∨
        FetchPoly.extract_category (rawGetD raw "tags" (.list [])) = .ok cat) →
      ∃ r, FetchPoly.parse_market raw = .ok r ∧
        r.expiry = FetchPoly.parsePolyExpiry
          (pyOr (rawGet raw "endDate") (rawGet raw "end_date_iso"))) := by
  refine ⟨?_, ?_, ?_⟩
  · intro h
    simp only [FetchKalshi.parse_market, FetchKalshi.parseKalshiExpiry, h,
      if_false, Bool.false_eq_true, bind, Except.bind]
    exact ⟨_, rfl, rfl⟩
  · intro h
    by_cases hs : pyTruthy (PyVal.str s) = true
    · simp only [FetchKalshi.parse_market, FetchKalshi.parseKalshiExpiry, h, hs,
        if_true, bind, Except.bind]
      exact ⟨_, rfl, rfl⟩
    · have hs0 : s = "" := by
        by_contra hne
        exact hs (pyTruthy_str_iff.mpr hne)
      subst hs0
      have hf0 : fromIso (pyReplace "" "Z" "+00:00") = Option.none := by decide
      have htf : pyTruthy (PyVal.str "") = false := by decide
      simp only [FetchKalshi.parse_market, FetchKalshi.parseKalshiExpiry, h, htf,
        Bool.false_eq_true, if_false, bind, Except.bind]
      exact ⟨_, rfl, by rw [hf0]⟩
  · intro hp hcat
    by_cases hc : pyTruthy (rawGet raw "category") = true
    · simp only [FetchPoly.parse_market, hp, hc, if_true, bind, Except.bind]
      exact ⟨_, rfl, rfl⟩
    · have hcat2 : FetchPoly.extract_category (rawGetD raw "tags" (.list [])) = .ok cat := by
        rcases hcat with h | h
        · exact absurd h hc
        · exact h
      have hcf : pyTruthy (rawGet raw "category") = false := by
        cases hx : pyTruthy (rawGet raw "category")
        · rfl
        · exact absurd hx hc
      simp only [FetchPoly.parse_market, hp, hcf, Bool.false_eq_true, if_false, hcat2,
        bind, Except.bind]
      exact ⟨_, rfl, rfl⟩

/-- Witness for the amended C6 theorem: an unparsable string expiry
degrades to `None` in both adapters. -/
theorem expiry_failures_degrade_witness :
    (∃ r, FetchKalshi.parse_market [("close_time", PyVal.str "not-a-date")] = .ok r ∧
        r.expiry = fromIso (pyReplace "not-a-date" "Z" "+00:00")) ∧
    (∃ r, FetchPoly.parse_market [("close_time", PyVal.str "not-a-date")] = .ok r ∧
        r.expiry = FetchPoly.parsePolyExpiry
          (pyOr (rawGet [("close_time", PyVal.str "not-a-date")] "endDate")
            (rawGet [("close_time", PyVal.str "not-a-date")] "end_date_iso"))) := by
  have h := expiry_failures_degrade [("close_time", PyVal.str "not-a-date")]
    "not-a-date" PyVal.none PyVal.none
  exact ⟨h.2.1 rfl, h.2.2 rfl (Or.inr rfl)⟩

/-- Claim C5 counterexample: a raw record with the non-string
outcome-price value `[None]` makes `parse_market` raise
`UnboundLocalError` (the handler tuple names `json.JSONDecodeError`, but
`import json` only ran in the string branch), instead of recording the
price as absent. -/
theorem poly_price_nonstring_raises_cex :
    FetchPoly.parse_market [("conditionId", PyVal.str "c"), ("question", PyVal.str "Q"),
        ("outcomePrices", PyVal.list [PyVal.none])] =
      .error .unboundLocalError := by
  rfl

/-- Claim C5 (amended): price-parse failures are caught and degrade to an
absent price only in the string branch of `outcomePrices` (decode
failures, and any element failure of a decoded array); a truthy
non-string `outcomePrices` raises `UnboundLocalError` on conversion
failure (see the counterexample), and a malformed `bestAsk` string in the
fallback branch raises `ValueError`. -/
theorem poly_price_handler_amended :
    (∀ (s : String) (ba lt : PyVal) (arr : List PyVal), s ≠ "" →
        jsonLoads s = .ok (.list arr) →
        ∃ v, FetchPoly.parsePolyPrice (.str s) ba lt = .ok v) ∧
    (∀ (s : String) (ba lt : PyVal) (e : PyErr), s ≠ "" →
        jsonLoads s = .error e →
        FetchPoly.parsePolyPrice (.str s) ba lt = .ok .none) ∧
    (∀ (s : String) (lt : PyVal), s ≠ "" → pyFloatStr s = Option.none →
        FetchPoly.parsePolyPrice .none (.str s) lt = .error .valueError) := by
  refine ⟨?_, ?_, ?_⟩
  · intro s ba lt arr hs hj
    have hts : pyTruthy (PyVal.str s) = true := pyTruthy_str_iff.mpr hs
    simp only [FetchPoly.parsePolyPrice, hts, if_true, hj]
    cases arr with
    | nil => exact ⟨.none, rfl⟩
    | cons x xs =>
      simp only [pySubscriptZero]
      cases hf : pyFloat x with
      | ok q => exact ⟨.num (q * 100), rfl⟩
      | error e =>
        simp only [pyFloat_error_caught hf, if_true]
        exact ⟨.none, rfl⟩
  · intro s ba lt e hs hj
    have hts : pyTruthy (PyVal.str s) = true := pyTruthy_str_iff.mpr hs
    simp only [FetchPoly.parsePolyPrice, hts, if_true, hj]
  · intro s lt hs hf
    have hts : pyTruthy (PyVal.str s) = true := pyTruthy_str_iff.mpr hs
    have hyp : pyOr (PyVal.str s) lt = PyVal.str s := by rw [pyOr, if_pos hts]
    simp only [FetchPoly.parsePolyPrice, show pyTruthy PyVal.none = false from rfl,
      Bool.false_eq_true, if_false, hyp, hts, if_true, pyFloat, hf]

/-- Witness for the amended C5 theorem at concrete inputs. -/
theorem poly_price_handler_witness :
    (∃ v, FetchPoly.parsePolyPrice (.str "[\"0.62\", \"0.38\"]") .none .none = .ok v) ∧
    FetchPoly.parsePolyPrice (.str "nope") .none .none = .ok .none ∧
    FetchPoly.parsePolyPrice .none (.str "abc") .none = .error .valueError := by
  refine ⟨?_, ?_, ?_⟩
  · exact poly_price_handler_amended.1 "[\"0.62\", \"0.38\"]" .none .none
      [PyVal.str "0.62", PyVal.str "0.38"] (by decide) (by rfl)
  · exact poly_price_handler_amended.2.1 "nope" .none .none .jsonDecodeError
      (by decide) (by rfl)
  · exact poly_price_handler_amended.2.2 "abc" .none (by decide) (by rfl)

end PredictionPulse

namespace PredictionPulse

/-- Claim C4 counterexample: the Kalshi `parse_market` passes price
fields through unclamped, so a raw record with `last_price = 150`
normalizes successfully with a present price outside `[0, 100]`. -/
theorem price_range_cex :
    (FetchKalshi.parse_market [("ticker", PyVal.str "T"), ("title", PyVal.str "Q"),
        ("last_price", PyVal.num 150)]).map (fun r => r.last_price) =
      .ok (PyVal.num 150) ∧
    ¬ ((150 : ℚ) ≤ 100) := by
  constructor
  · rfl
  · norm_num

/-- Claim C4 (amended): no price is ever clamped.  Kalshi prices are raw
passthroughs (in range exactly when the source value is); Polymarket
prices are 100 times the first outcome value (whether given as a literal
list or as a JSON string), hence in `[0, 100]` exactly when that value
lies in `[0, 1]`. -/
theorem price_scale_amended :
    (∀ (raw : RawDict) (r : FetchKalshi.KalshiParsed),
        FetchKalshi.parse_market raw = .ok r →
        r.last_price = rawGet raw "last_price" ∧ r.yes_bid = rawGet raw "yes_bid" ∧
          r.yes_ask = rawGet raw "yes_ask") ∧
    (∀ (q : ℚ) (arr : List PyVal) (ba lt : PyVal),
        FetchPoly.parsePolyPrice (.list (PyVal.num q :: arr)) ba lt =
          .ok (.num (q * 100))) ∧
    (∀ (s : String) (p0 : PyVal) (arr : List PyVal) (ba lt : PyVal) (q : ℚ), s ≠ "" →
        jsonLoads s = .ok (.list (p0 :: arr)) → pyFloat p0 = .ok q →
        FetchPoly.parsePolyPrice (.str s) ba lt = .ok (.num (q * 100))) ∧
    (∀ q : ℚ, (0 ≤ q ∧ q ≤ 1) ↔ (0 ≤ q * 100 ∧ q * 100 ≤ 100)) := by
  refine ⟨?_, ?_, ?_, ?_⟩
  · intro raw r h
    cases hex : FetchKalshi.parseKalshiExpiry
        (pyOr (rawGet raw "close_time") (rawGet raw "expiration_time")) with
    | error e =>
      simp only [FetchKalshi.parse_market, hex, bind, Except.bind] at h
      exact Except.noConfusion h
    | ok exp =>
      simp only [FetchKalshi.parse_market, hex, bind, Except.bind, Except.ok.injEq] at h
      subst h
      exact ⟨rfl, rfl, rfl⟩
  · intro q arr ba lt
    rfl
  · intro s p0 arr ba lt q hs hj hf
    have hts : pyTruthy (PyVal.str s) = true := pyTruthy_str_iff.mpr hs
    simp only [FetchPoly.parsePolyPrice, hts, if_true, hj, pySubscriptZero, hf]
  · intro q
    constructor
    · rintro ⟨h1, h2⟩
      constructor
      · nlinarith
      · nlinarith
    · rintro ⟨h1, h2⟩
      constructor
      · nlinarith
      · nlinarith

/-- Witness for the amended C4 theorem: a JSON outcome-price string is
decoded, converted and scaled by 100. -/
theorem price_scale_witness :
    FetchPoly.parsePolyPrice (.str "[\"7\"]") .none .none =
      .ok (.num (((7 : ℕ) : ℚ) * 100)) :=
  price_scale_amended.2.2.1 "[\"7\"]" (PyVal.str "7") [] .none .none
    ((7 : ℕ) : ℚ) (by decide) (by rfl) (by rfl)

/-- Claim C2 counterexample: the Kalshi engine stores `market_id` as the
native ticker itself — no source tag is prepended (nothing nonempty
precedes the native id in the stored key). -/
theorem market_id_no_tag_cex :
    (IngestKalshi.ingest_markets StoreBehavior.honest
        [FetchKalshi.mkKalshi (.str "T1") (.str "Q")] 1 Db.Store.empty).2.markets.map
        (fun r => r.market_id) = [PyVal.str "T1"] ∧
    ¬ ∃ tag : String, tag ≠ "" ∧ "T1" = tag ++ "T1" := by
  constructor
  · rfl
  · rintro ⟨tag, hne, heq⟩
    have hlen := congrArg String.length heq
    rw [String.length_append] at hlen
    have h0 : tag.length = 0 := by omega
    have hdata : tag.data = [] := List.length_eq_zero.mp h0
    apply hne
    cases tag with
    | mk d =>
      have hd : d = [] := by simpa using hdata
      rw [hd]

/-- Claim C2 (amended): only the Polymarket engine namespaces its ids
(prepending the tag `poly_`, injectively in the native id); the Kalshi
engine stores the native ticker unchanged, so ids from the two sources
are guaranteed distinct only when the Kalshi ticker does not itself start
with `poly_`. -/
theorem market_id_namespacing (t c : String)
    (hnp : t.data.take 5 ≠ "poly_".data) :
    (∀ (k : FetchKalshi.KalshiParsed) (fail : Bool) (s s2 : Db.Store)
        (r : Db.MarketRow) (now : ℕ),
        k.ticker = PyVal.str t →
        IngestKalshi.upsert_market fail s k now = .ok (s2, r) →
        r.market_id = PyVal.str t) ∧
    (∀ c2 : String, ("poly_" ++ c : String) = "poly_" ++ c2 → c = c2) ∧
    PyVal.str t ≠ PyVal.str ("poly_" ++ c) := by
  refine ⟨?_, ?_, ?_⟩
  · intro k fail s s2 r now hk hup
    unfold IngestKalshi.upsert_market at hup
    cases hex : Db.upsertMarketExec IngestKalshi.marketValueCols fail k.ticker k.title
        k.category k.status k.expiry now s with
    | error e =>
      rw [hex] at hup
      simp [bind, Except.bind] at hup
    | ok s3 =>
      rw [hex] at hup
      simp only [bind, Except.bind] at hup
      cases hf : List.find? (fun r2 => decide (r2.market_id = k.ticker)) s3.markets with
      | none =>
        rw [hf] at hup
        simp at hup
      | some r2 =>
        rw [hf] at hup
        simp only [Except.ok.injEq, Prod.mk.injEq] at hup
        have hpred := List.find?_some hf
        have heq : r2.market_id = k.ticker := of_decide_eq_true hpred
        rw [← hup.2, heq, hk]
  · intro c2 h
    have hd := congrArg String.data h
    have hsplit : ∀ a b : String, (a ++ b).data = a.data ++ b.data := fun a b => rfl
    rw [hsplit, hsplit] at hd
    have hc := List.append_cancel_left hd
    cases c with
    | mk d1 =>
      cases c2 with
      | mk d2 =>
        have hd12 : d1 = d2 := by simpa using hc
        rw [hd12]
  · intro h
    apply hnp
    have h2 : t = "poly_" ++ c := by injection h
    have hlen : ("poly_" : String).data.length = 5 := by decide
    rw [h2]
    have hsplit : ("poly_" ++ c : String).data = "poly_".data ++ c.data := rfl
    rw [hsplit, ← hlen]
    exact List.take_left "poly_".data c.data

/-- Witness for the amended C2 theorem: a ticker not starting with
`poly_` cannot collide with any Polymarket id. -/
theorem market_id_namespacing_witness :
    PyVal.str "T1" ≠ PyVal.str ("poly_" ++ "abc") :=
  (market_id_namespacing "T1" "abc" (by decide)).2.2

end PredictionPulse

namespace PredictionPulse

/-- Claim C8 counterexample: a Kalshi record with a ticker but no title
passes the Kalshi filter unchanged (that filter has no identity/title
check), reaches the engine's market write, fails the NOT NULL title
constraint there, and is recorded in the errors list of the returned
stats — the claim says such records are excluded before the writes and
never recorded in errors. -/
theorem titleless_record_in_errors_cex :
    IngestKalshi.ingest_markets StoreBehavior.honest
        [FetchKalshi.mkKalshi (.str "T1") PyVal.none] 1 Db.Store.empty =
      (.ok ⟨0, 0, 0, ["T1: " ++ PyErr.msg .integrityError]⟩, Db.Store.empty) ∧
    FetchKalshi.filter_markets [FetchKalshi.mkKalshi (.str "T1") PyVal.none]
        Option.none Option.none true ⟨⟨2026, 1, 1, 0, 0, 0, 0⟩, Option.none⟩ =
      .ok [FetchKalshi.mkKalshi (.str "T1") PyVal.none] := by
  constructor
  · rfl
  · rfl

/-- Claim C8 (amended): a record with a falsy native id is skipped by
both engines before any write, uncounted and unrecorded; the Polymarket
filter (which runs before its engine) passes only records with truthy
`condition_id` and `title`; but a Kalshi record with a ticker and no
title does reach the engine and lands in `errors` (see the
counterexample). -/
theorem identityless_records_skipped (beh : StoreBehavior) (now : ℕ) :
    (∀ (m : FetchKalshi.KalshiParsed) (ms : List FetchKalshi.KalshiParsed)
        (idx : ℕ) (s : Db.Store) (st : IngestionStats),
        pyTruthy m.ticker = false →
        IngestKalshi.ingestLoop beh now (m :: ms) idx s st =
          IngestKalshi.ingestLoop beh now ms (idx + 1) s st) ∧
    (∀ (m : FetchPoly.PolyParsed) (ms : List FetchPoly.PolyParsed)
        (idx : ℕ) (s : Db.Store) (st : IngestionStats),
        pyTruthy m.condition_id = false →
        IngestPoly.ingestLoop beh now (m :: ms) idx s st =
          IngestPoly.ingestLoop beh now ms (idx + 1) s st) ∧
    (∀ (ms : List FetchPoly.PolyParsed) (cat : Option String) (mv : Option ℤ)
        (fo : Bool) (nowD : PyDateTime) (res : List FetchPoly.PolyParsed),
        FetchPoly.filter_markets ms cat mv fo nowD = .ok res →
        ∀ m ∈ res, pyTruthy m.condition_id = true ∧ pyTruthy m.title = true) := by
  refine ⟨?_, ?_, ?_⟩
  · intro m ms idx s st h
    simp [IngestKalshi.ingestLoop, h]
  · intro m ms idx s st h
    simp [IngestPoly.ingestLoop, h]
  · intro ms
    induction ms with
    | nil =>
      intro cat mv fo nowD res h m hm
      simp only [FetchPoly.filter_markets, Except.ok.injEq] at h
      subst h
      simp at hm
    | cons x xs ih =>
      intro cat mv fo nowD res h m hm
      cases hk : FetchPoly.keepMarket cat mv fo nowD x with
      | error e =>
        simp only [FetchPoly.filter_markets, hk, bind, Except.bind] at h
        exact Except.noConfusion h
      | ok keep =>
        cases ht : FetchPoly.filter_markets xs cat mv fo nowD with
        | error e =>
          simp only [FetchPoly.filter_markets, hk, ht, bind, Except.bind] at h
          exact Except.noConfusion h
        | ok tail =>
          simp only [FetchPoly.filter_markets, hk, ht, bind, Except.bind,
            Except.ok.injEq] at h
          subst h
          cases keep with
          | false =>
            simp only [if_false, Bool.false_eq_true] at hm
            exact ih cat mv fo nowD tail ht m hm
          | true =>
            simp only [if_true] at hm
            cases hm with
            | tail _ hm2 => exact ih cat mv fo nowD tail ht m hm2
            | head =>
              by_cases hc : (pyTruthy x.condition_id && pyTruthy x.title) = true
              · exact ⟨(Bool.and_eq_true _ _ |>.mp hc).1, (Bool.and_eq_true _ _ |>.mp hc).2⟩
              · have hcf : (pyTruthy x.condition_id && pyTruthy x.title) = false := by
                  cases hx : (pyTruthy x.condition_id && pyTruthy x.title)
                  · rfl
                  · exact absurd hx hc
                rw [FetchPoly.keepMarket, hcf] at hk
                simp at hk

/-- Witness for the amended C8 theorem: a record with no id is skipped
by the Kalshi loop, and a filtered Polymarket batch retains only records
with truthy identity and title. -/
theorem identityless_records_skipped_witness :
    IngestKalshi.ingestLoop StoreBehavior.honest 1
        [FetchKalshi.mkKalshi PyVal.none (.str "Q")] 0 Db.Store.empty
        IngestionStats.init =
      IngestKalshi.ingestLoop StoreBehavior.honest 1 [] 1 Db.Store.empty
        IngestionStats.init ∧
    (pyTruthy (FetchPoly.mkPoly (.str "c1") (.str "Q")).condition_id = true ∧
      pyTruthy (FetchPoly.mkPoly (.str "c1") (.str "Q")).title = true) := by
  constructor
  · exact (identityless_records_skipped StoreBehavior.honest 1).1
      (FetchKalshi.mkKalshi PyVal.none (.str "Q")) [] 0 Db.Store.empty
      IngestionStats.init (by decide)
  · exact (identityless_records_skipped StoreBehavior.honest 1).2.2
      [FetchPoly.mkPoly (.str "c1") (.str "Q")] Option.none Option.none true
      ⟨⟨2026, 1, 1, 0, 0, 0, 0⟩, Option.none⟩
      [FetchPoly.mkPoly (.str "c1") (.str "Q")] (by rfl)
      (FetchPoly.mkPoly (.str "c1") (.str "Q")) (by simp)

/-- Claim C3: an unexpected failure (one the per-market handler does not
catch — in this model, a commit failure) makes `ingest_markets` roll the
session back, leaving the committed store exactly as it was, and the
exception propagates to the caller; more generally, whenever
`ingest_markets` propagates an exception the returned committed store is
the input store — no partial batch is ever committed. -/
theorem batch_rollback (bk bp : StoreBehavior) (msk : List FetchKalshi.KalshiParsed)
    (msp : List FetchPoly.PolyParsed) (nk np : ℕ) (dbk dbp : Db.Store) :
    (bk.failCommit = true →
      IngestKalshi.ingest_markets bk msk nk dbk = (.error .dbError, dbk)) ∧
    (∀ (e : PyErr) (st : Db.Store),
      IngestKalshi.ingest_markets bk msk nk dbk = (.error e, st) → st = dbk) ∧
    (bp.failCommit = true →
      IngestPoly.ingest_markets bp msp np dbp = (.error .dbError, dbp)) ∧
    (∀ (e : PyErr) (st : Db.Store),
      IngestPoly.ingest_markets bp msp np dbp = (.error e, st) → st = dbp) := by
  refine ⟨?_, ?_, ?_, ?_⟩
  · intro h
    unfold IngestKalshi.ingest_markets
    cases hl : IngestKalshi.ingestLoop bk nk msk 0 dbk IngestionStats.init with
    | mk pending stats => simp [h]
  · intro e st h
    unfold IngestKalshi.ingest_markets at h
    cases hl : IngestKalshi.ingestLoop bk nk msk 0 dbk IngestionStats.init with
    | mk pending stats =>
      rw [hl] at h
      by_cases hfc : bk.failCommit = true
      · simp only [hfc, if_true, Prod.mk.injEq, Except.error.injEq] at h
        exact h.2.symm
      · simp [hfc] at h
  · intro h
    unfold IngestPoly.ingest_markets
    cases hl : IngestPoly.ingestLoop bp np msp 0 dbp IngestionStats.init with
    | mk pending stats => simp [h]
  · intro e st h
    unfold IngestPoly.ingest_markets at h
    cases hl : IngestPoly.ingestLoop bp np msp 0 dbp IngestionStats.init with
    | mk pending stats =>
      rw [hl] at h
      by_cases hfc : bp.failCommit = true
      · simp only [hfc, if_true, Prod.mk.injEq, Except.error.injEq] at h
        exact h.2.symm
      · simp [hfc] at h

/-- Witness for the C3 theorem: with a commit that fails, ingesting a
one-market batch leaves the store untouched and surfaces the error. -/
theorem batch_rollback_witness :
    IngestKalshi.ingest_markets ⟨fun _ => false, fun _ => false, fun _ => false, true⟩
        [FetchKalshi.mkKalshi (.str "T1") (.str "Q")] 1 Db.Store.empty =
      (.error .dbError, Db.Store.empty) :=
  (batch_rollback ⟨fun _ => false, fun _ => false, fun _ => false, true⟩
    StoreBehavior.honest [FetchKalshi.mkKalshi (.str "T1") (.str "Q")] [] 1 1
    Db.Store.empty Db.Store.empty).1 rfl

end PredictionPulse

namespace PredictionPulse

/-- The per-market increments of the Kalshi engine are one of
(0,0,0), (1,0,0), (1,1,0), (1,1,1): each later counter is bumped only
after the earlier ones. -/
theorem ingestOne_bounds_kalshi (beh : StoreBehavior) (idx : ℕ)
    (m : FetchKalshi.KalshiParsed) (now : ℕ) (s : Db.Store) :
    (IngestKalshi.ingestOne beh idx m now s).dc ≤
      (IngestKalshi.ingestOne beh idx m now s).dm ∧
    (IngestKalshi.ingestOne beh idx m now s).dp ≤
      (IngestKalshi.ingestOne beh idx m now s).dc := by
  cases h1 : IngestKalshi.upsert_market (beh.failMarketOp idx) s m now with
  | error e => simp [IngestKalshi.ingestOne, h1]
  | ok p1 =>
    cases p1 with
    | mk s1 market =>
      cases h2 : IngestKalshi.upsert_contract (beh.failContractOp idx) s1
          market.market_id m.ticker now with
      | error e => simp [IngestKalshi.ingestOne, h1, h2]
      | ok p2 =>
        cases p2 with
        | mk s2 contract =>
          by_cases h3 : beh.failPriceOp idx = true
          · simp [IngestKalshi.ingestOne, h1, h2, h3]
          · simp [IngestKalshi.ingestOne, h1, h2, h3]

/-- The per-market increments of the Polymarket engine obey the same
staircase shape. -/
theorem ingestOne_bounds_poly (beh : StoreBehavior) (idx : ℕ)
    (m : FetchPoly.PolyParsed) (now : ℕ) (s : Db.Store) :
    (IngestPoly.ingestOne beh idx m now s).dc ≤
      (IngestPoly.ingestOne beh idx m now s).dm ∧
    (IngestPoly.ingestOne beh idx m now s).dp ≤
      (IngestPoly.ingestOne beh idx m now s).dc := by
  cases h1 : IngestPoly.upsert_market (beh.failMarketOp idx) s m now with
  | error e => simp [IngestPoly.ingestOne, h1]
  | ok p1 =>
    cases p1 with
    | mk s1 market =>
      cases h2 : IngestPoly.upsert_contract (beh.failContractOp idx) s1
          market.market_id m.condition_id now with
      | error e => simp [IngestPoly.ingestOne, h1, h2]
      | ok p2 =>
        cases p2 with
        | mk s2 contract =>
          by_cases h3 : beh.failPriceOp idx = true
          · simp [IngestPoly.ingestOne, h1, h2, h3]
          · simp [IngestPoly.ingestOne, h1, h2, h3]


/-- Loop invariant of the Kalshi engine: counter staircase inequalities
are preserved and at most one error is recorded per batch element. -/
theorem ingestLoop_stats_kalshi (beh : StoreBehavior) (now : ℕ) :
    ∀ (ms : List FetchKalshi.KalshiParsed) (idx : ℕ) (s : Db.Store)
      (st : IngestionStats),
    ((IngestKalshi.ingestLoop beh now ms idx s st).2.contracts_processed +
        st.markets_processed ≤
      (IngestKalshi.ingestLoop beh now ms idx s st).2.markets_processed +
        st.contracts_processed) ∧
    ((IngestKalshi.ingestLoop beh now ms idx s st).2.prices_inserted +
        st.contracts_processed ≤
      (IngestKalshi.ingestLoop beh now ms idx s st).2.contracts_processed +
        st.prices_inserted) ∧
    (IngestKalshi.ingestLoop beh now ms idx s st).2.errors.length ≤
      st.errors.length + ms.length := by
  intro ms
  induction ms with
  | nil =>
    intro idx s st
    simp only [IngestKalshi.ingestLoop]
    refine ⟨by omega, by omega, by omega⟩
  | cons m rest ih =>
    intro idx s st
    by_cases hsk : pyTruthy m.ticker = true
    · cases hone : IngestKalshi.ingestOne beh idx m now s with
      | mk pending dm dc dp err =>
        have hstep := ingestOne_bounds_kalshi beh idx m now s
        rw [hone] at hstep
        simp only at hstep
        obtain ⟨hs1, hs2⟩ := hstep
        cases err with
        | none =>
          have hloop : IngestKalshi.ingestLoop beh now (m :: rest) idx s st =
              IngestKalshi.ingestLoop beh now rest (idx + 1) pending
                ⟨st.markets_processed + dm, st.contracts_processed + dc,
                 st.prices_inserted + dp, st.errors⟩ := by
            simp [IngestKalshi.ingestLoop, hsk, hone]
          rw [hloop]
          obtain ⟨hr1, hr2, hr3⟩ := ih (idx + 1) pending
            ⟨st.markets_processed + dm, st.contracts_processed + dc,
             st.prices_inserted + dp, st.errors⟩
          simp only at hr1 hr2 hr3
          simp only [List.length_cons]
          refine ⟨by omega, by omega, by omega⟩
        | some e =>
          have hloop : IngestKalshi.ingestLoop beh now (m :: rest) idx s st =
              IngestKalshi.ingestLoop beh now rest (idx + 1) pending
                ⟨st.markets_processed + dm, st.contracts_processed + dc,
                 st.prices_inserted + dp,
                 st.errors ++ [pyStrOf m.ticker ++ ": " ++ e.msg]⟩ := by
            simp [IngestKalshi.ingestLoop, hsk, hone]
          rw [hloop]
          obtain ⟨hr1, hr2, hr3⟩ := ih (idx + 1) pending
            ⟨st.markets_processed + dm, st.contracts_processed + dc,
             st.prices_inserted + dp,
             st.errors ++ [pyStrOf m.ticker ++ ": " ++ e.msg]⟩
          simp only [List.length_append, List.length_cons, List.length_nil] at hr1 hr2 hr3
          simp only [List.length_cons]
          refine ⟨by omega, by omega, by omega⟩
    · have hskf : pyTruthy m.ticker = false := by
        cases hx : pyTruthy m.ticker
        · rfl
        · exact absurd hx hsk
      have hloop : IngestKalshi.ingestLoop beh now (m :: rest) idx s st =
          IngestKalshi.ingestLoop beh now rest (idx + 1) s st := by
        simp [IngestKalshi.ingestLoop, hskf]
      rw [hloop]
      obtain ⟨hr1, hr2, hr3⟩ := ih (idx + 1) s st
      simp only [List.length_cons]
      refine ⟨by omega, by omega, by omega⟩

/-- Loop invariant of the Polymarket engine, identical in shape. -/
theorem ingestLoop_stats_poly (beh : StoreBehavior) (now : ℕ) :
    ∀ (ms : List FetchPoly.PolyParsed) (idx : ℕ) (s : Db.Store)
      (st : IngestionStats),
    ((IngestPoly.ingestLoop beh now ms idx s st).2.contracts_processed +
        st.markets_processed ≤
      (IngestPoly.ingestLoop beh now ms idx s st).2.markets_processed +
        st.contracts_processed) ∧
    ((IngestPoly.ingestLoop beh now ms idx s st).2.prices_inserted +
        st.contracts_processed ≤
      (IngestPoly.ingestLoop beh now ms idx s st).2.contracts_processed +
        st.prices_inserted) ∧
    (IngestPoly.ingestLoop beh now ms idx s st).2.errors.length ≤
      st.errors.length + ms.length := by
  intro ms
  induction ms with
  | nil =>
    intro idx s st
    simp only [IngestPoly.ingestLoop]
    refine ⟨by omega, by omega, by omega⟩
  | cons m rest ih =>
    intro idx s st
    by_cases hsk : pyTruthy m.condition_id = true
    · cases hone : IngestPoly.ingestOne beh idx m now s with
      | mk pending dm dc dp err =>
        have hstep := ingestOne_bounds_poly beh idx m now s
        rw [hone] at hstep
        simp only at hstep
        obtain ⟨hs1, hs2⟩ := hstep
        cases err with
        | none =>
          have hloop : IngestPoly.ingestLoop beh now (m :: rest) idx s st =
              IngestPoly.ingestLoop beh now rest (idx + 1) pending
                ⟨st.markets_processed + dm, st.contracts_processed + dc,
                 st.prices_inserted + dp, st.errors⟩ := by
            simp [IngestPoly.ingestLoop, hsk, hone]
          rw [hloop]
          obtain ⟨hr1, hr2, hr3⟩ := ih (idx + 1) pending
            ⟨st.markets_processed + dm, st.contracts_processed + dc,
             st.prices_inserted + dp, st.errors⟩
          simp only at hr1 hr2 hr3
          simp only [List.length_cons]
          refine ⟨by omega, by omega, by omega⟩
        | some e =>
          have hloop : IngestPoly.ingestLoop beh now (m :: rest) idx s st =
              IngestPoly.ingestLoop beh now rest (idx + 1) pending
                ⟨st.markets_processed + dm, st.contracts_processed + dc,
                 st.prices_inserted + dp,
                 st.errors ++ [pyStrOf m.condition_id ++ ": " ++ e.msg]⟩ := by
            simp [IngestPoly.ingestLoop, hsk, hone]
          rw [hloop]
          obtain ⟨hr1, hr2, hr3⟩ := ih (idx + 1) pending
            ⟨st.markets_processed + dm, st.contracts_processed + dc,
             st.prices_inserted + dp,
             st.errors ++ [pyStrOf m.condition_id ++ ": " ++ e.msg]⟩
          simp only [List.length_append, List.length_cons, List.length_nil] at hr1 hr2 hr3
          simp only [List.length_cons]
          refine ⟨by omega, by omega, by omega⟩
    · have hskf : pyTruthy m.condition_id = false := by
        cases hx : pyTruthy m.condition_id
        · rfl
        · exact absurd hx hsk
      have hloop : IngestPoly.ingestLoop beh now (m :: rest) idx s st =
          IngestPoly.ingestLoop beh now rest (idx + 1) s st := by
        simp [IngestPoly.ingestLoop, hskf]
      rw [hloop]
      obtain ⟨hr1, hr2, hr3⟩ := ih (idx + 1) s st
      simp only [List.length_cons]
      refine ⟨by omega, by omega, by omega⟩

/-- Claim C10: whatever the store does (including arbitrary injected
per-market write failures), a returned `IngestionStats` satisfies
`markets_processed >= contracts_processed >= prices_inserted`, and the
number of recorded errors never exceeds the number of input markets —
for both engines. -/
theorem stats_invariants (bk bp : StoreBehavior)
    (msk : List FetchKalshi.KalshiParsed) (msp : List FetchPoly.PolyParsed)
    (nk np : ℕ) (dbk dbp : Db.Store) (sk sp : IngestionStats)
    (stk stp : Db.Store)
    (hk : IngestKalshi.ingest_markets bk msk nk dbk = (.ok sk, stk))
    (hp : IngestPoly.ingest_markets bp msp np dbp = (.ok sp, stp)) :
    (sk.contracts_processed ≤ sk.markets_processed ∧
      sk.prices_inserted ≤ sk.contracts_processed ∧
      sk.errors.length ≤ msk.length) ∧
    (sp.contracts_processed ≤ sp.markets_processed ∧
      sp.prices_inserted ≤ sp.contracts_processed ∧
      sp.errors.length ≤ msp.length) := by
  constructor
  · have hinv := ingestLoop_stats_kalshi bk nk msk 0 dbk IngestionStats.init
    unfold IngestKalshi.ingest_markets at hk
    cases hl : IngestKalshi.ingestLoop bk nk msk 0 dbk IngestionStats.init with
    | mk pending stats =>
      rw [hl] at hk hinv
      by_cases hfc : bk.failCommit = true
      · simp [hfc] at hk
      · simp only [hfc, if_false, Bool.false_eq_true, Prod.mk.injEq,
          Except.ok.injEq] at hk
        obtain ⟨hk1, hk2⟩ := hk
        subst hk1
        simp only [IngestionStats.init] at hinv
        obtain ⟨h1, h2, h3⟩ := hinv
        simp only [List.length_nil] at h3
        exact ⟨by omega, by omega, by omega⟩
  · have hinv := ingestLoop_stats_poly bp np msp 0 dbp IngestionStats.init
    unfold IngestPoly.ingest_markets at hp
    cases hl : IngestPoly.ingestLoop bp np msp 0 dbp IngestionStats.init with
    | mk pending stats =>
      rw [hl] at hp hinv
      by_cases hfc : bp.failCommit = true
      · simp [hfc] at hp
      · simp only [hfc, if_false, Bool.false_eq_true, Prod.mk.injEq,
          Except.ok.injEq] at hp
        obtain ⟨hp1, hp2⟩ := hp
        subst hp1
        simp only [IngestionStats.init] at hinv
        obtain ⟨h1, h2, h3⟩ := hinv
        simp only [List.length_nil] at h3
        exact ⟨by omega, by omega, by omega⟩

/-- Witness for the C10 theorem: one-market batches, the Kalshi store
failing the contract write and the Polymarket engine failing its market
write at compile time. -/
theorem stats_invariants_witness :
    ((0 : ℕ) ≤ 1 ∧ (0 : ℕ) ≤ 0 ∧ (1 : ℕ) ≤ 1) ∧
    ((0 : ℕ) ≤ 0 ∧ (0 : ℕ) ≤ 0 ∧ (1 : ℕ) ≤ 1) := by
  have h := stats_invariants
    ⟨fun _ => false, fun _ => true, fun _ => false, false⟩ StoreBehavior.honest
    [FetchKalshi.mkKalshi (.str "T1") (.str "Q")]
    [FetchPoly.mkPoly (.str "c1") (.str "Q")] 1 1 Db.Store.empty Db.Store.empty
    ⟨1, 0, 0, ["T1: " ++ PyErr.msg .dbError]⟩
    ⟨0, 0, 0, ["c1: " ++ PyErr.msg .compileError]⟩
    ((IngestKalshi.ingest_markets ⟨fun _ => false, fun _ => true, fun _ => false, false⟩
        [FetchKalshi.mkKalshi (.str "T1") (.str "Q")] 1 Db.Store.empty).2)
    ((IngestPoly.ingest_markets StoreBehavior.honest
        [FetchPoly.mkPoly (.str "c1") (.str "Q")] 1 Db.Store.empty).2)
    (by rfl) (by rfl)
  exact h

end PredictionPulse

namespace PredictionPulse

theorem find?_key_append_single {α : Type} (p : α → Bool) (l : List α) (a : α)
    (h : l.any p = false) (ha : p a = true) : (l ++ [a]).find? p = some a := by
  induction l with
  | nil => simp [List.find?, ha]
  | cons x xs ih =>
    simp only [List.any_cons, Bool.or_eq_false_iff] at h
    simp only [List.cons_append, List.find?]
    rw [h.1]
    exact ih h.2

theorem ingestOne_fresh_kalshi (m : FetchKalshi.KalshiParsed) (idx t : ℕ) (s : Db.Store)
    (hw : IngestKalshi.Writable m)
    (hmf : IngestKalshi.marketKeyFree s m.ticker)
    (hcf : IngestKalshi.contractKeyFree s m.ticker) :
    IngestKalshi.ingestOne StoreBehavior.honest idx m t s =
      ⟨{ markets := s.markets ++ [IngestKalshi.canonMRow m t]
         contracts := s.contracts ++ [IngestKalshi.canonCRow m s.nextContractId t]
         prices := s.prices ++ [IngestKalshi.canonPRow m s.nextContractId t]
         nextContractId := s.nextContractId + 1 }, 1, 1, 1, Option.none⟩ := by
  obtain ⟨ht, htt⟩ := hw
  have hmid : m.ticker ≠ PyVal.none := pyTruthy_ne_none ht
  have hids : ¬(m.ticker = PyVal.none ∨ m.title = PyVal.none) := by
    rintro (h | h)
    · exact hmid h
    · exact htt h
  have hids2 : ¬(m.ticker = PyVal.none ∨ m.ticker = PyVal.none) := by
    rintro (h | h) <;> exact hmid h
  have hcols : (IngestKalshi.marketValueCols.all
      (fun c => Db.marketColumns.contains c)) = true := by decide
  have hccols : (IngestKalshi.contractValueCols.all
      (fun c => Db.contractColumns.contains c)) = true := by decide
  have hexec : Db.upsertMarketExec IngestKalshi.marketValueCols false m.ticker m.title
      m.category m.status m.expiry t s =
      .ok { s with markets := s.markets ++ [IngestKalshi.canonMRow m t] } := by
    unfold Db.upsertMarketExec
    rw [hcols]
    simp only [Bool.not_true, Bool.false_eq_true, if_false]
    rw [if_neg hids]
    rw [if_neg (by simp only [IngestKalshi.marketKeyFree] at hmf; simp [hmf])]
    rfl
  have hup : IngestKalshi.upsert_market false s m t =
      .ok ({ s with markets := s.markets ++ [IngestKalshi.canonMRow m t] },
        IngestKalshi.canonMRow m t) := by
    unfold IngestKalshi.upsert_market
    rw [hexec]
    simp only [bind, Except.bind]
    rw [find?_key_append_single _ _ _ hmf (by simp [IngestKalshi.canonMRow])]
  have hcexec : Db.upsertContractExec IngestKalshi.contractValueCols false m.ticker
      m.ticker (.str "YES") (.str ("YES contract for " ++ pyStrOf m.ticker)) t
      { s with markets := s.markets ++ [IngestKalshi.canonMRow m t] } =
      .ok ({ markets := s.markets ++ [IngestKalshi.canonMRow m t]
             contracts := s.contracts ++ [IngestKalshi.canonCRow m s.nextContractId t]
             prices := s.prices
             nextContractId := s.nextContractId + 1 },
        IngestKalshi.canonCRow m s.nextContractId t) := by
    unfold Db.upsertContractExec
    rw [hccols]
    simp only [Bool.not_true, Bool.false_eq_true, if_false]
    rw [if_neg hids2]
    rw [show ({ s with markets := s.markets ++ [IngestKalshi.canonMRow m t] } :
        Db.Store).contracts = s.contracts from rfl, hcf]
    rfl
  have hcup : IngestKalshi.upsert_contract false
      { s with markets := s.markets ++ [IngestKalshi.canonMRow m t] }
      (IngestKalshi.canonMRow m t).market_id m.ticker t =
      .ok ({ markets := s.markets ++ [IngestKalshi.canonMRow m t]
             contracts := s.contracts ++ [IngestKalshi.canonCRow m s.nextContractId t]
             prices := s.prices
             nextContractId := s.nextContractId + 1 },
        IngestKalshi.canonCRow m s.nextContractId t) := by
    unfold IngestKalshi.upsert_contract
    exact hcexec
  simp only [IngestKalshi.ingestOne, StoreBehavior.honest, hup, hcup]
  rfl

end PredictionPulse

namespace PredictionPulse

theorem any_false_find?_none {α : Type} {p : α → Bool} {l : List α}
    (h : l.any p = false) : l.find? p = Option.none := by
  induction l with
  | nil => rfl
  | cons x xs ih =>
    simp only [List.any_cons, Bool.or_eq_false_iff] at h
    simp only [List.find?]
    rw [h.1]
    exact ih h.2

theorem find?_middle {α : Type} (p : α → Bool) (l1 : List α) (x : α) (l2 : List α)
    (h : l1.any p = false) (hx : p x = true) : (l1 ++ x :: l2).find? p = some x := by
  induction l1 with
  | nil => simp [List.find?, hx]
  | cons y ys ih =>
    simp only [List.any_cons, Bool.or_eq_false_iff] at h
    simp only [List.cons_append, List.find?]
    rw [h.1]
    exact ih h.2

theorem map_ite_id {α : Type} (q : α → Prop) [DecidablePred q] (f : α → α) (l : List α)
    (h : l.any (fun r => decide (q r)) = false) :
    l.map (fun r => if q r then f r else r) = l := by
  induction l with
  | nil => rfl
  | cons x xs ih =>
    simp only [List.any_cons, Bool.or_eq_false_iff, decide_eq_false_iff_not] at h
    simp only [List.map]
    rw [if_neg h.1, ih (by simpa using h.2)]

theorem ingestOne_rerun_kalshi (m : FetchKalshi.KalshiParsed) (idx t1 t2 : ℕ)
    (A B : List Db.MarketRow) (C D : List Db.ContractRow) (P : List Db.PriceRow)
    (nid nid2 : ℕ) (hw : IngestKalshi.Writable m)
    (hma : A.any (fun r => decide (r.market_id = m.ticker)) = false)
    (hmb : B.any (fun r => decide (r.market_id = m.ticker)) = false)
    (hca : C.any (fun r => decide (r.contract_ticker = m.ticker)) = false)
    (hcd : D.any (fun r => decide (r.contract_ticker = m.ticker)) = false) :
    IngestKalshi.ingestOne StoreBehavior.honest idx m t2
        ⟨A ++ IngestKalshi.canonMRow m t1 :: B, C ++ IngestKalshi.canonCRow m nid t1 :: D,
         P, nid2⟩ =
      ⟨⟨A ++ IngestKalshi.canonMRow2 m t1 t2 :: B,
        C ++ IngestKalshi.canonCRow m nid t1 :: D,
        P ++ [IngestKalshi.canonPRow m nid t2], nid2⟩, 1, 1, 1, Option.none⟩ := by
  obtain ⟨ht, htt⟩ := hw
  have hmid : m.ticker ≠ PyVal.none := pyTruthy_ne_none ht
  have hids : ¬(m.ticker = PyVal.none ∨ m.title = PyVal.none) := by
    rintro (h | h)
    · exact hmid h
    · exact htt h
  have hids2 : ¬(m.ticker = PyVal.none ∨ m.ticker = PyVal.none) := by
    rintro (h | h) <;> exact hmid h
  have hcols : (IngestKalshi.marketValueCols.all
      (fun c => Db.marketColumns.contains c)) = true := by decide
  have hccols : (IngestKalshi.contractValueCols.all
      (fun c => Db.contractColumns.contains c)) = true := by decide
  have hany : (A ++ IngestKalshi.canonMRow m t1 :: B).any
      (fun r => decide (r.market_id = m.ticker)) = true := by
    refine List.any_eq_true.mpr ⟨IngestKalshi.canonMRow m t1, ?_, ?_⟩
    · simp
    · simp [IngestKalshi.canonMRow]
  have hmap : (A ++ IngestKalshi.canonMRow m t1 :: B).map
      (fun r => if r.market_id = m.ticker then
        { r with title := m.title, category := m.category, status := m.status,
                 expiry_ts := m.expiry, updated_at := t2 } else r) =
      A ++ IngestKalshi.canonMRow2 m t1 t2 :: B := by
    rw [List.map_append, List.map_cons]
    rw [map_ite_id _ _ _ hma, map_ite_id _ _ _ hmb]
    rw [if_pos (show (IngestKalshi.canonMRow m t1).market_id = m.ticker from rfl)]
    rfl
  have hexec : Db.upsertMarketExec IngestKalshi.marketValueCols false m.ticker m.title
      m.category m.status m.expiry t2
      ⟨A ++ IngestKalshi.canonMRow m t1 :: B, C ++ IngestKalshi.canonCRow m nid t1 :: D,
       P, nid2⟩ =
      .ok ⟨A ++ IngestKalshi.canonMRow2 m t1 t2 :: B,
           C ++ IngestKalshi.canonCRow m nid t1 :: D, P, nid2⟩ := by
    unfold Db.upsertMarketExec
    rw [hcols]
    simp only [Bool.not_true, Bool.false_eq_true, if_false]
    rw [if_neg hids]
    simp only [hany, if_true]
    rw [hmap]
  have hup : IngestKalshi.upsert_market false
      ⟨A ++ IngestKalshi.canonMRow m t1 :: B, C ++ IngestKalshi.canonCRow m nid t1 :: D,
       P, nid2⟩ m t2 =
      .ok (⟨A ++ IngestKalshi.canonMRow2 m t1 t2 :: B,
            C ++ IngestKalshi.canonCRow m nid t1 :: D, P, nid2⟩,
        IngestKalshi.canonMRow2 m t1 t2) := by
    unfold IngestKalshi.upsert_market
    rw [hexec]
    simp only [bind, Except.bind]
    rw [find?_middle _ _ _ _ hma (by simp [IngestKalshi.canonMRow2])]
  have hcmap : (C ++ IngestKalshi.canonCRow m nid t1 :: D).map
      (fun r => if r.contract_ticker = m.ticker then
        { IngestKalshi.canonCRow m nid t1 with
            side := PyVal.str "YES"
            description := PyVal.str ("YES contract for " ++ pyStrOf m.ticker) }
        else r) = C ++ IngestKalshi.canonCRow m nid t1 :: D := by
    rw [List.map_append, List.map_cons]
    rw [map_ite_id _ _ _ hca, map_ite_id _ _ _ hcd]
    rw [if_pos (show (IngestKalshi.canonCRow m nid t1).contract_ticker = m.ticker from rfl)]
    rfl
  have hcexec : Db.upsertContractExec IngestKalshi.contractValueCols false m.ticker
      m.ticker (.str "YES") (.str ("YES contract for " ++ pyStrOf m.ticker)) t2
      ⟨A ++ IngestKalshi.canonMRow2 m t1 t2 :: B,
       C ++ IngestKalshi.canonCRow m nid t1 :: D, P, nid2⟩ =
      .ok (⟨A ++ IngestKalshi.canonMRow2 m t1 t2 :: B,
            C ++ IngestKalshi.canonCRow m nid t1 :: D, P, nid2⟩,
        IngestKalshi.canonCRow m nid t1) := by
    unfold Db.upsertContractExec
    rw [hccols]
    simp only [Bool.not_true, Bool.false_eq_true, if_false]
    rw [if_neg hids2]
    rw [find?_middle _ _ _ _ hca (by simp [IngestKalshi.canonCRow])]
    simp only []
    rw [hcmap]
    rfl
  have hcup : IngestKalshi.upsert_contract false
      ⟨A ++ IngestKalshi.canonMRow2 m t1 t2 :: B,
       C ++ IngestKalshi.canonCRow m nid t1 :: D, P, nid2⟩
      (IngestKalshi.canonMRow2 m t1 t2).market_id m.ticker t2 =
      .ok (⟨A ++ IngestKalshi.canonMRow2 m t1 t2 :: B,
            C ++ IngestKalshi.canonCRow m nid t1 :: D, P, nid2⟩,
        IngestKalshi.canonCRow m nid t1) := by
    unfold IngestKalshi.upsert_contract
    exact hcexec
  simp only [IngestKalshi.ingestOne, StoreBehavior.honest, hup, hcup]
  rfl

end PredictionPulse

namespace PredictionPulse

theorem any_append_false {α : Type} {p : α → Bool} {l1 l2 : List α}
    (h1 : l1.any p = false) (h2 : l2.any p = false) : (l1 ++ l2).any p = false := by
  induction l1 with
  | nil => exact h2
  | cons x xs ih =>
    simp only [List.any_cons, Bool.or_eq_false_iff] at h1
    simp only [List.cons_append, List.any_cons, Bool.or_eq_false_iff]
    exact ⟨h1.1, ih h1.2⟩

theorem find?_append_none {α : Type} {p : α → Bool} {l1 l2 : List α}
    (h1 : l1.find? p = Option.none) (h2 : l2.find? p = Option.none) :
    (l1 ++ l2).find? p = Option.none := by
  induction l1 with
  | nil => exact h2
  | cons x xs ih =>
    simp only [List.cons_append, List.find?] at h1 ⊢
    cases hx : p x with
    | true =>
      rw [hx] at h1
      exact Option.noConfusion h1
    | false =>
      rw [hx] at h1
      exact ih h1

theorem canonMarkets_any_false (t : ℕ) (k : PyVal) (ms : List FetchKalshi.KalshiParsed)
    (h : ∀ m ∈ ms, m.ticker ≠ k) :
    (IngestKalshi.canonMarkets t ms).any (fun r => decide (r.market_id = k)) = false := by
  induction ms with
  | nil => rfl
  | cons m rest ih =>
    simp only [IngestKalshi.canonMarkets, List.map_cons, List.any_cons,
      Bool.or_eq_false_iff]
    constructor
    · simp [IngestKalshi.canonMRow, h m (List.mem_cons_self _ _)]
    · exact ih (fun m2 hm2 => h m2 (List.mem_cons_of_mem _ hm2))

theorem canonContracts_any_false (t : ℕ) (k : PyVal) :
    ∀ (ms : List FetchKalshi.KalshiParsed) (nid : ℕ), (∀ m ∈ ms, m.ticker ≠ k) →
    (IngestKalshi.canonContracts t ms nid).any
      (fun r => decide (r.contract_ticker = k)) = false := by
  intro ms
  induction ms with
  | nil => intro nid h; rfl
  | cons m rest ih =>
    intro nid h
    simp only [IngestKalshi.canonContracts, List.any_cons, Bool.or_eq_false_iff]
    constructor
    · simp [IngestKalshi.canonCRow, h m (List.mem_cons_self _ _)]
    · exact ih (nid + 1) (fun m2 hm2 => h m2 (List.mem_cons_of_mem _ hm2))

theorem ingestLoop_fresh_kalshi (t : ℕ) :
    ∀ (ms : List FetchKalshi.KalshiParsed) (idx : ℕ) (s : Db.Store) (st : IngestionStats),
    IngestKalshi.ValidBatch ms →
    IngestKalshi.FreshFor ms s →
    IngestKalshi.ingestLoop StoreBehavior.honest t ms idx s st =
      ({ markets := s.markets ++ IngestKalshi.canonMarkets t ms
         contracts := s.contracts ++ IngestKalshi.canonContracts t ms s.nextContractId
         prices := s.prices ++ IngestKalshi.canonPrices t ms s.nextContractId
         nextContractId := s.nextContractId + ms.length },
       { markets_processed := st.markets_processed + ms.length
         contracts_processed := st.contracts_processed + ms.length
         prices_inserted := st.prices_inserted + ms.length
         errors := st.errors }) := by
  intro ms
  induction ms with
  | nil =>
    intro idx s st hv hf
    cases s with
    | mk sm sc sp snid =>
      cases st with
      | mk stm stc stp ste =>
        simp [IngestKalshi.ingestLoop, IngestKalshi.canonMarkets,
          IngestKalshi.canonContracts, IngestKalshi.canonPrices]
  | cons m rest ih =>
    intro idx s st hv hf
    obtain ⟨hw, hnd⟩ := hv
    have hwm := hw m (List.mem_cons_self _ _)
    have hfm := hf m (List.mem_cons_self _ _)
    have hsk : pyTruthy m.ticker = true := hwm.1
    simp only [List.map_cons, List.nodup_cons] at hnd
    obtain ⟨hnotin, hnd2⟩ := hnd
    have hone := ingestOne_fresh_kalshi m idx t s hwm hfm.1 hfm.2
    have hloop : IngestKalshi.ingestLoop StoreBehavior.honest t (m :: rest) idx s st =
        IngestKalshi.ingestLoop StoreBehavior.honest t rest (idx + 1)
          { markets := s.markets ++ [IngestKalshi.canonMRow m t]
            contracts := s.contracts ++ [IngestKalshi.canonCRow m s.nextContractId t]
            prices := s.prices ++ [IngestKalshi.canonPRow m s.nextContractId t]
            nextContractId := s.nextContractId + 1 }
          { markets_processed := st.markets_processed + 1
            contracts_processed := st.contracts_processed + 1
            prices_inserted := st.prices_inserted + 1
            errors := st.errors } := by
      simp [IngestKalshi.ingestLoop, hsk, hone]
    have hvrest : IngestKalshi.ValidBatch rest :=
      ⟨fun m2 hm2 => hw m2 (List.mem_cons_of_mem _ hm2), hnd2⟩
    have hfrest : IngestKalshi.FreshFor rest
        { markets := s.markets ++ [IngestKalshi.canonMRow m t]
          contracts := s.contracts ++ [IngestKalshi.canonCRow m s.nextContractId t]
          prices := s.prices ++ [IngestKalshi.canonPRow m s.nextContractId t]
          nextContractId := s.nextContractId + 1 } := by
      intro m2 hm2
      have hne : m.ticker ≠ m2.ticker := by
        intro hx
        exact hnotin (hx ▸ List.mem_map_of_mem (fun m3 => m3.ticker) hm2)
      have hfm2 := hf m2 (List.mem_cons_of_mem _ hm2)
      constructor
      · exact any_append_false hfm2.1
          (by simp [IngestKalshi.canonMRow, hne])
      · exact find?_append_none hfm2.2
          (by simp [List.find?, IngestKalshi.canonCRow, hne])
    rw [hloop, ih (idx + 1) _ _ hvrest hfrest]
    simp only [Prod.mk.injEq]
    constructor
    · simp only [Db.Store.mk.injEq]
      refine ⟨?_, ?_, ?_, ?_⟩
      · simp [IngestKalshi.canonMarkets, List.append_assoc]
      · simp [IngestKalshi.canonContracts, List.append_assoc]
      · simp [IngestKalshi.canonPrices, List.append_assoc]
      · simp [List.length_cons]
        omega
    · simp only [IngestionStats.mk.injEq, List.length_cons, and_true]
      omega

end PredictionPulse

namespace PredictionPulse

theorem ingestLoop_rerun_kalshi (t1 t2 : ℕ) :
    ∀ (ms : List FetchKalshi.KalshiParsed) (idx : ℕ) (mpre : List Db.MarketRow)
      (cpre : List Db.ContractRow) (P : List Db.PriceRow) (nid0 nid2 : ℕ)
      (st : IngestionStats),
    IngestKalshi.ValidBatch ms →
    (∀ m ∈ ms, mpre.any (fun r => decide (r.market_id = m.ticker)) = false) →
    (∀ m ∈ ms, cpre.any (fun r => decide (r.contract_ticker = m.ticker)) = false) →
    IngestKalshi.ingestLoop StoreBehavior.honest t2 ms idx
        ⟨mpre ++ IngestKalshi.canonMarkets t1 ms,
         cpre ++ IngestKalshi.canonContracts t1 ms nid0, P, nid2⟩ st =
      (⟨mpre ++ IngestKalshi.canonMarkets2 t1 t2 ms,
        cpre ++ IngestKalshi.canonContracts t1 ms nid0,
        P ++ IngestKalshi.canonPrices t2 ms nid0, nid2⟩,
       { markets_processed := st.markets_processed + ms.length
         contracts_processed := st.contracts_processed + ms.length
         prices_inserted := st.prices_inserted + ms.length
         errors := st.errors }) := by
  intro ms
  induction ms with
  | nil =>
    intro idx mpre cpre P nid0 nid2 st hv hmp hcp
    cases st with
    | mk stm stc stp ste =>
      simp [IngestKalshi.ingestLoop, IngestKalshi.canonMarkets,
        IngestKalshi.canonMarkets2, IngestKalshi.canonContracts,
        IngestKalshi.canonPrices]
  | cons m rest ih =>
    intro idx mpre cpre P nid0 nid2 st hv hmp hcp
    obtain ⟨hw, hnd⟩ := hv
    have hwm := hw m (List.mem_cons_self _ _)
    have hsk : pyTruthy m.ticker = true := hwm.1
    simp only [List.map_cons, List.nodup_cons] at hnd
    obtain ⟨hnotin, hnd2⟩ := hnd
    have hneAll : ∀ m2 ∈ rest, m2.ticker ≠ m.ticker := by
      intro m2 hm2 hx
      exact hnotin (hx ▸ List.mem_map_of_mem (fun m3 => m3.ticker) hm2)
    have hsplitM : IngestKalshi.canonMarkets t1 (m :: rest) =
        IngestKalshi.canonMRow m t1 :: IngestKalshi.canonMarkets t1 rest := rfl
    have hsplitC : IngestKalshi.canonContracts t1 (m :: rest) nid0 =
        IngestKalshi.canonCRow m nid0 t1 ::
          IngestKalshi.canonContracts t1 rest (nid0 + 1) := rfl
    have hmb : (IngestKalshi.canonMarkets t1 rest).any
        (fun r => decide (r.market_id = m.ticker)) = false :=
      canonMarkets_any_false t1 m.ticker rest hneAll
    have hcd : (IngestKalshi.canonContracts t1 rest (nid0 + 1)).any
        (fun r => decide (r.contract_ticker = m.ticker)) = false :=
      canonContracts_any_false t1 m.ticker rest (nid0 + 1) hneAll
    have hone := ingestOne_rerun_kalshi m idx t1 t2 mpre
      (IngestKalshi.canonMarkets t1 rest) cpre
      (IngestKalshi.canonContracts t1 rest (nid0 + 1)) P nid0 nid2 hwm
      (hmp m (List.mem_cons_self _ _)) hmb (hcp m (List.mem_cons_self _ _)) hcd
    rw [hsplitM, hsplitC]
    have hloop : IngestKalshi.ingestLoop StoreBehavior.honest t2 (m :: rest) idx
        ⟨mpre ++ IngestKalshi.canonMRow m t1 :: IngestKalshi.canonMarkets t1 rest,
         cpre ++ IngestKalshi.canonCRow m nid0 t1 ::
           IngestKalshi.canonContracts t1 rest (nid0 + 1), P, nid2⟩ st =
        IngestKalshi.ingestLoop StoreBehavior.honest t2 rest (idx + 1)
          ⟨mpre ++ IngestKalshi.canonMRow2 m t1 t2 :: IngestKalshi.canonMarkets t1 rest,
           cpre ++ IngestKalshi.canonCRow m nid0 t1 ::
             IngestKalshi.canonContracts t1 rest (nid0 + 1),
           P ++ [IngestKalshi.canonPRow m nid0 t2], nid2⟩
          { markets_processed := st.markets_processed + 1
            contracts_processed := st.contracts_processed + 1
            prices_inserted := st.prices_inserted + 1
            errors := st.errors } := by
      simp [IngestKalshi.ingestLoop, hsk, hone]
    rw [hloop]
    have hS1 : (⟨mpre ++ IngestKalshi.canonMRow2 m t1 t2 ::
          IngestKalshi.canonMarkets t1 rest,
        cpre ++ IngestKalshi.canonCRow m nid0 t1 ::
          IngestKalshi.canonContracts t1 rest (nid0 + 1),
        P ++ [IngestKalshi.canonPRow m nid0 t2], nid2⟩ : Db.Store) =
        ⟨(mpre ++ [IngestKalshi.canonMRow2 m t1 t2]) ++
          IngestKalshi.canonMarkets t1 rest,
         (cpre ++ [IngestKalshi.canonCRow m nid0 t1]) ++
           IngestKalshi.canonContracts t1 rest (nid0 + 1),
         P ++ [IngestKalshi.canonPRow m nid0 t2], nid2⟩ := by
      simp
    rw [hS1]
    have hmp2 : ∀ m2 ∈ rest, (mpre ++ [IngestKalshi.canonMRow2 m t1 t2]).any
        (fun r => decide (r.market_id = m2.ticker)) = false := by
      intro m2 hm2
      refine any_append_false (hmp m2 (List.mem_cons_of_mem _ hm2)) ?_
      simp [IngestKalshi.canonMRow2]
      intro hx
      exact absurd hx.symm (hneAll m2 hm2)
    have hcp2 : ∀ m2 ∈ rest, (cpre ++ [IngestKalshi.canonCRow m nid0 t1]).any
        (fun r => decide (r.contract_ticker = m2.ticker)) = false := by
      intro m2 hm2
      refine any_append_false (hcp m2 (List.mem_cons_of_mem _ hm2)) ?_
      simp [IngestKalshi.canonCRow]
      intro hx
      exact absurd hx.symm (hneAll m2 hm2)
    have hvrest : IngestKalshi.ValidBatch rest :=
      ⟨fun m2 hm2 => hw m2 (List.mem_cons_of_mem _ hm2), hnd2⟩
    rw [ih (idx + 1) (mpre ++ [IngestKalshi.canonMRow2 m t1 t2])
      (cpre ++ [IngestKalshi.canonCRow m nid0 t1])
      (P ++ [IngestKalshi.canonPRow m nid0 t2]) (nid0 + 1) nid2
      { markets_processed := st.markets_processed + 1
        contracts_processed := st.contracts_processed + 1
        prices_inserted := st.prices_inserted + 1
        errors := st.errors } hvrest hmp2 hcp2]
    simp only [Prod.mk.injEq]
    constructor
    · simp only [Db.Store.mk.injEq]
      refine ⟨?_, ?_, ?_, trivial⟩
      · simp [IngestKalshi.canonMarkets2, List.append_assoc]
      · simp [List.append_assoc]
      · have hsplitP : IngestKalshi.canonPrices t2 (m :: rest) nid0 =
            IngestKalshi.canonPRow m nid0 t2 ::
              IngestKalshi.canonPrices t2 rest (nid0 + 1) := rfl
        rw [hsplitP]
        simp [List.append_assoc]
    · simp only [IngestionStats.mk.injEq, List.length_cons, and_true]
      omega

end PredictionPulse

namespace PredictionPulse

theorem canonPrices_filter_count (t : ℕ) :
    ∀ (ms : List FetchKalshi.KalshiParsed) (nid k : ℕ),
    ((IngestKalshi.canonPrices t ms nid).filter
      (fun p => p.contract_id == k)).length =
    if nid ≤ k ∧ k < nid + ms.length then 1 else 0 := by
  intro ms
  induction ms with
  | nil =>
    intro nid k
    simp only [IngestKalshi.canonPrices, List.filter_nil, List.length_nil]
    rw [if_neg (by omega)]
  | cons m rest ih =>
    intro nid k
    have hsplit : IngestKalshi.canonPrices t (m :: rest) nid =
        IngestKalshi.canonPRow m nid t :: IngestKalshi.canonPrices t rest (nid + 1) := rfl
    rw [hsplit]
    simp only [List.length_cons]
    by_cases hk : nid = k
    · rw [List.filter_cons_of_pos (by simp [IngestKalshi.canonPRow, hk])]
      rw [List.length_cons, ih (nid + 1) k]
      rw [if_neg (by omega), if_pos (by omega)]
    · rw [List.filter_cons_of_neg (by simp [IngestKalshi.canonPRow, hk])]
      rw [ih (nid + 1) k]
      by_cases h2 : nid + 1 ≤ k ∧ k < nid + 1 + rest.length
      · rw [if_pos h2, if_pos (by omega)]
      · rw [if_neg h2, if_neg (by omega)]

theorem canonContracts_id_bounds (t : ℕ) :
    ∀ (ms : List FetchKalshi.KalshiParsed) (nid : ℕ) (c : Db.ContractRow),
    c ∈ IngestKalshi.canonContracts t ms nid → nid ≤ c.id ∧ c.id < nid + ms.length := by
  intro ms
  induction ms with
  | nil =>
    intro nid c hc
    simp [IngestKalshi.canonContracts] at hc
  | cons m rest ih =>
    intro nid c hc
    have hsplit : IngestKalshi.canonContracts t (m :: rest) nid =
        IngestKalshi.canonCRow m nid t ::
          IngestKalshi.canonContracts t rest (nid + 1) := rfl
    rw [hsplit] at hc
    simp only [List.length_cons]
    rcases List.mem_cons.mp hc with h | h
    · subst h
      simp only [IngestKalshi.canonCRow]
      omega
    · have := ih (nid + 1) c h
      omega

/-- Claim C1 (amended, Kalshi engine): for a valid batch with distinct
tickers, the first run from an empty store inserts exactly one market
row, one contract row and one snapshot per market; re-ingesting the same
batch leaves the market rows identical except for a refreshed
`updated_at`, leaves the contract rows exactly identical, keeps market
keys duplicate-free, and appends one further snapshot per contract, so
each contract then has exactly two snapshots.  (The Polymarket engine
never reaches this state: its market upsert fails on every market — see
the counterexample.) -/
theorem reingest_idempotent_kalshi (ms : List FetchKalshi.KalshiParsed) (t1 t2 : ℕ)
    (hv : IngestKalshi.ValidBatch ms) :
    IngestKalshi.ingest_markets StoreBehavior.honest ms t1 Db.Store.empty =
      (.ok ⟨ms.length, ms.length, ms.length, []⟩,
       ⟨IngestKalshi.canonMarkets t1 ms, IngestKalshi.canonContracts t1 ms 0,
        IngestKalshi.canonPrices t1 ms 0, ms.length⟩) ∧
    IngestKalshi.ingest_markets StoreBehavior.honest ms t2
        ⟨IngestKalshi.canonMarkets t1 ms, IngestKalshi.canonContracts t1 ms 0,
         IngestKalshi.canonPrices t1 ms 0, ms.length⟩ =
      (.ok ⟨ms.length, ms.length, ms.length, []⟩,
       ⟨IngestKalshi.canonMarkets2 t1 t2 ms, IngestKalshi.canonContracts t1 ms 0,
        IngestKalshi.canonPrices t1 ms 0 ++ IngestKalshi.canonPrices t2 ms 0,
        ms.length⟩) ∧
    IngestKalshi.canonMarkets2 t1 t2 ms =
      (IngestKalshi.canonMarkets t1 ms).map (fun r => { r with updated_at := t2 }) ∧
    ((IngestKalshi.canonMarkets t1 ms).map (fun r => r.market_id)).Nodup ∧
    ∀ c ∈ IngestKalshi.canonContracts t1 ms 0,
      ((IngestKalshi.canonPrices t1 ms 0 ++ IngestKalshi.canonPrices t2 ms 0).filter
        (fun p => p.contract_id == c.id)).length = 2 := by
  refine ⟨?_, ?_, ?_, ?_, ?_⟩
  · unfold IngestKalshi.ingest_markets
    rw [ingestLoop_fresh_kalshi t1 ms 0 Db.Store.empty IngestionStats.init hv
      (fun m hm => ⟨rfl, rfl⟩)]
    simp [Db.Store.empty, IngestionStats.init, StoreBehavior.honest]
  · unfold IngestKalshi.ingest_markets
    rw [show (⟨IngestKalshi.canonMarkets t1 ms, IngestKalshi.canonContracts t1 ms 0,
        IngestKalshi.canonPrices t1 ms 0, ms.length⟩ : Db.Store) =
      ⟨[] ++ IngestKalshi.canonMarkets t1 ms, [] ++ IngestKalshi.canonContracts t1 ms 0,
       IngestKalshi.canonPrices t1 ms 0, ms.length⟩ from by simp]
    rw [ingestLoop_rerun_kalshi t1 t2 ms 0 [] [] (IngestKalshi.canonPrices t1 ms 0) 0
      ms.length IngestionStats.init hv (fun m hm => rfl) (fun m hm => rfl)]
    simp [IngestionStats.init, StoreBehavior.honest]
  · rw [IngestKalshi.canonMarkets2, IngestKalshi.canonMarkets, List.map_map]
    rfl
  · have hkeys : (IngestKalshi.canonMarkets t1 ms).map (fun r => r.market_id) =
        ms.map (fun m => m.ticker) := by
      rw [IngestKalshi.canonMarkets, List.map_map]
      rfl
    rw [hkeys]
    exact hv.2
  · intro c hc
    have hb := canonContracts_id_bounds t1 ms 0 c hc
    rw [List.filter_append, List.length_append]
    rw [canonPrices_filter_count t1 ms 0 c.id, canonPrices_filter_count t2 ms 0 c.id]
    rw [if_pos hb]

end PredictionPulse

namespace PredictionPulse

/-- Claim C1 counterexample: re-ingesting a Polymarket batch twice leaves
the store completely empty — there is no market row per `market_id` and
no snapshots at all, because every market upsert fails statement
compilation (the `source` value has no column) and the failure is
swallowed per market. -/
theorem reingest_poly_writes_nothing_cex :
    (IngestPoly.ingest_markets StoreBehavior.honest
        [FetchPoly.mkPoly (.str "abc") (.str "Q?")] 2
        ((IngestPoly.ingest_markets StoreBehavior.honest
            [FetchPoly.mkPoly (.str "abc") (.str "Q?")] 1 Db.Store.empty).2)).2 =
      Db.Store.empty := by
  rfl

/-- Witness for the amended C1 theorem: a concrete one-market batch,
re-ingested at time 2 over its own first run at time 1. -/
theorem reingest_idempotent_kalshi_witness :
    IngestKalshi.ingest_markets StoreBehavior.honest
        [FetchKalshi.mkKalshi (.str "T1") (.str "Q")] 2
        ⟨IngestKalshi.canonMarkets 1 [FetchKalshi.mkKalshi (.str "T1") (.str "Q")],
         IngestKalshi.canonContracts 1 [FetchKalshi.mkKalshi (.str "T1") (.str "Q")] 0,
         IngestKalshi.canonPrices 1 [FetchKalshi.mkKalshi (.str "T1") (.str "Q")] 0, 1⟩ =
      (.ok ⟨1, 1, 1, []⟩,
       ⟨IngestKalshi.canonMarkets2 1 2 [FetchKalshi.mkKalshi (.str "T1") (.str "Q")],
        IngestKalshi.canonContracts 1 [FetchKalshi.mkKalshi (.str "T1") (.str "Q")] 0,
        IngestKalshi.canonPrices 1 [FetchKalshi.mkKalshi (.str "T1") (.str "Q")] 0 ++
          IngestKalshi.canonPrices 2 [FetchKalshi.mkKalshi (.str "T1") (.str "Q")] 0,
        1⟩) :=
  (reingest_idempotent_kalshi [FetchKalshi.mkKalshi (.str "T1") (.str "Q")] 1 2
    (by decide)).2.1

end PredictionPulse
